import Mathlib

/-!
Shallow embedding of the OpenFixedPoint library (src/fixedpointlib.cpp).

Modelling conventions:
* C++ `double` values are modelled by `ℚ`.  Every arithmetic step the
  library performs on doubles (scaling by a power of two, adding aligned
  integer-valued operands, dividing by a power of two) is exact on the
  integer-valued quantities the library manipulates as long as the
  asserted precision ceiling `intg + frac < 63` keeps them inside the
  53-bit double mantissa, so the rational model is faithful there.
* C++ `int64_t` and `int` are modelled by `ℤ`; the library's own checked
  invariant `intg + frac < 63` is what keeps the real code inside the
  64-bit range, and theorems carry the corresponding width hypotheses.
* `x % y` on C++ integers is truncated remainder, i.e. `Int.tmod`.
* `(int64_t)x` truncation of a double toward zero is `trunc64`.
* `fastfloor` equals real floor `⌊·⌋`; C `round` is round-half-away-from
  zero, modelled by `cround`.
* The literal `±inf` inputs and the `±inf` bounds of the Float kind do
  not exist in `ℚ`; finite inputs never compare equal to `inf`, and a
  Float-kind value is never clamped (its bounds are `±inf`), which the
  model expresses by skipping the saturation block for `d_FLOAT`.
* `_DEBUG` assertions (checked mode) are modelled by `set_val_checked`,
  which returns `none` exactly when an assertion in `_set_val` fires;
  `set_val` is the unchecked semantics (assertions compiled out).
-/

/-- The five numeric kinds of the library (`enum dtype`). -/
inductive dtype where
  | d_INT
  | d_UINT
  | d_FXP
  | d_UFXP
  | d_FLOAT
deriving DecidableEq, Repr

/-- The four width-inference modes (`enum modes`). -/
inductive modes where
  | FULL
  | FIXEDFRAC
  | FIXEDWIDTH
  | MANUAL
deriving DecidableEq, Repr

/-- Configuration record (`class tuple`). -/
structure tuple where
  intg : ℤ
  frac : ℤ
  type : dtype
  opmode : modes
  sat : Bool
  rounding : Bool
deriving DecidableEq, Repr

/-- `((int64_t)1) << n` for the non-negative shift amounts the library uses. -/
def pow2 (n : ℤ) : ℤ := 2 ^ n.toNat

/-- `(type == d_UINT) | (type == d_UFXP)`: the unsigned kinds. -/
def dtype.isUnsigned : dtype → Bool
  | .d_UINT => true
  | .d_UFXP => true
  | _ => false

/-- `(type == d_UINT) | (type == d_INT)`: the integer kinds. -/
def dtype.isIntKind : dtype → Bool
  | .d_UINT => true
  | .d_INT => true
  | _ => false

/-- `(type == d_UFXP) | (type == d_FXP)`: the fractional kinds. -/
def dtype.isFxpKind : dtype → Bool
  | .d_UFXP => true
  | .d_FXP => true
  | _ => false

/-- `this->shift = double(((int64_t)1) << this->frac)` from `_set_bounds`. -/
def tuple.shift (t : tuple) : ℚ := (pow2 t.frac : ℚ)

/-- `this->full` from `_set_bounds`: the representable count. -/
def tuple.full (t : tuple) : ℤ :=
  if t.type.isUnsigned then pow2 (t.intg + t.frac) else pow2 (t.intg + t.frac + 1)

/-- `this->half` from `_set_bounds`. -/
def tuple.half (t : tuple) : ℤ :=
  if t.type.isUnsigned then 0 else pow2 (t.intg + t.frac)

/-- `this->pinf` from `_set_bounds`, for the non-Float kinds.  (For
`d_FLOAT` the source sets `pinf = inf`; the model handles that case by
never clamping a Float-kind value.) -/
def tuple.pinf (t : tuple) : ℚ :=
  if t.intg < 31 ∧ t.frac < 31 then ((pow2 (t.intg + t.frac) : ℚ) - 1) / t.shift
  else (pow2 t.intg : ℚ) - 1

/-- `this->ninf` from `_set_bounds`, for the non-Float kinds. -/
def tuple.ninf (t : tuple) : ℚ :=
  if t.intg < 31 ∧ t.frac < 31 then
    if t.type.isUnsigned then 0 else -(pow2 (t.intg + t.frac) : ℚ) / t.shift
  else
    if t.type.isUnsigned then 0 else -(pow2 t.intg : ℚ)

/-- C `round`: round half away from zero. -/
def cround (x : ℚ) : ℤ := if 0 ≤ x then ⌊x + 1/2⌋ else -⌊-x + 1/2⌋

/-- The rounding step shared by `_to_signed` and `_to_unsigned`:
`round(temp)` when `rounding` is set, else `fastfloor(temp)`. -/
def tuple.rnd (t : tuple) (x : ℚ) : ℤ :=
  if t.rounding then cround x else ⌊x⌋

/-- `(int64_t)x` for a double: truncation toward zero. -/
def trunc64 (x : ℚ) : ℤ := if 0 ≤ x then ⌊x⌋ else ⌈x⌉

/-- `_to_signed`: scale, round or floor, sign-correcting modulo, re-center. -/
def tuple.to_signed (t : tuple) (v : ℚ) : ℤ :=
  let temp : ℤ := t.rnd (v * t.shift)
  let tempint : ℤ := Int.tmod (temp + t.half) t.full
  let tempint : ℤ := if tempint < 0 then tempint + t.full else tempint
  tempint - t.half

/-- `_to_unsigned`: scale, round or floor, sign-correcting modulo. -/
def tuple.to_unsigned (t : tuple) (v : ℚ) : ℤ :=
  let temp : ℤ := t.rnd (v * t.shift)
  let tempint : ℤ := Int.tmod temp t.full
  let tempint : ℤ := if tempint < 0 then tempint + t.full else tempint
  tempint

/-- The saturation block at the top of `_set_val`: when `sat` is set the
value is clamped first against `pinf`, then against `ninf` (a Float-kind
value has infinite bounds and is never clamped). -/
def tuple.clamp (t : tuple) (v : ℚ) : ℚ :=
  if t.type = dtype.d_FLOAT then v
  else if t.sat then
    let va := if t.pinf < v then t.pinf else v
    if va < t.ninf then t.ninf else va
  else v

/-- `_set_val` with assertions compiled out: the stored `_val` a finite
input `val` produces. -/
def tuple.set_val (t : tuple) (v : ℚ) : ℚ :=
  let v1 := t.clamp v
  match t.type with
  | dtype.d_FLOAT => v1
  | dtype.d_INT => ((t.to_signed v1 : ℤ) : ℚ)
  | dtype.d_FXP => ((t.to_signed v1 : ℤ) : ℚ)
  | dtype.d_UINT => ((t.to_unsigned v1 : ℤ) : ℚ)
  | dtype.d_UFXP => ((t.to_unsigned v1 : ℤ) : ℚ)

/-- `_set_val` in checked mode (`_DEBUG` defined, as in the shipped
source): `none` exactly when one of its assertions fires on a finite
input — the width ceiling, `frac == 0` for the integer kinds, `val >= 0`
for the unsigned kinds (tested after saturation), and the final
sign-preservation assertion `tempval * this->_val >= 0`. -/
def tuple.set_val_checked (t : tuple) (v : ℚ) : Option ℚ :=
  if ¬ (t.intg + t.frac < 63) then none
  else
    let v1 := t.clamp v
    let ok : Bool :=
      match t.type with
      | dtype.d_INT => decide (t.frac = 0)
      | dtype.d_UINT => decide (t.frac = 0) && decide (0 ≤ v1)
      | dtype.d_UFXP => decide (0 ≤ v1)
      | _ => true
    if ¬ ok = true then none
    else
      let r := t.set_val v
      if v * r < 0 then none else some r

/-- The fixed-point value class `FXP`; the cached `_set_bounds` fields
are recomputed from the configuration on demand. -/
structure FXP where
  _val : ℚ
  intg : ℤ
  frac : ℤ
  type : dtype
  opmode : modes
  sat : Bool
  rounding : Bool
deriving DecidableEq, Repr

/-- The configuration fields of an `FXP` object, as a `tuple` (what
`_read_template` copies out of an `FXP` template). -/
def FXP.tup (a : FXP) : tuple := ⟨a.intg, a.frac, a.type, a.opmode, a.sat, a.rounding⟩

/-- The constructor `FXP(double val, TYPE templ)`: read the template,
set the bounds, quantize the value. -/
def mkFXP (v : ℚ) (t : tuple) : FXP :=
  ⟨t.set_val v, t.intg, t.frac, t.type, t.opmode, t.sat, t.rounding⟩

/-- Method `val()`: the floating-point representation of the object. -/
def FXP.val (a : FXP) : ℚ :=
  if a.type = dtype.d_FLOAT then a._val else a._val / a.tup.shift

/-- Method `copy()`: `FXP(this->val(), *this)`. -/
def FXP.copy (a : FXP) : FXP := mkFXP a.val a.tup

/-- Unary `operator-`: `FXP(-a.val(), a)`. -/
def FXP.neg (a : FXP) : FXP := mkFXP (-a.val) a.tup

/-- `operator>>(FXP a, int b)`. -/
def shr (a : FXP) (b : ℤ) : FXP :=
  mkFXP (a.val / (pow2 b : ℚ))
    ⟨min (a.intg - b) 0, a.frac + b, a.type, a.opmode, a.sat, a.rounding⟩

/-- `operator<<(FXP a, int b)`. -/
def shl (a : FXP) (b : ℤ) : FXP :=
  mkFXP (a.val * (pow2 b : ℚ))
    ⟨a.intg + b, max (a.frac - b) 0, a.type, a.opmode, a.sat, a.rounding⟩

/-- Result kind of `_add` (also of `_mul`, which repeats the table). -/
def add_type (ta tb : dtype) : dtype :=
  if ta = dtype.d_UINT ∧ tb = dtype.d_UINT then dtype.d_UINT
  else if (ta = dtype.d_UINT ∧ tb = dtype.d_INT) ∨ (ta = dtype.d_INT ∧ tb = dtype.d_UINT) then
    dtype.d_INT
  else if (ta = dtype.d_UINT ∧ tb = dtype.d_UFXP) ∨ (ta = dtype.d_UFXP ∧ tb = dtype.d_UINT) then
    dtype.d_UFXP
  else dtype.d_FXP

/-- Result kind of `_sub`. -/
def sub_type (ta tb : dtype) : dtype :=
  if ta = dtype.d_UINT ∧ tb = dtype.d_UINT then dtype.d_INT
  else if (ta = dtype.d_UINT ∧ tb = dtype.d_INT) ∨ (ta = dtype.d_INT ∧ tb = dtype.d_UINT) then
    dtype.d_INT
  else if (ta = dtype.d_UINT ∧ tb = dtype.d_UFXP) ∨ (ta = dtype.d_UFXP ∧ tb = dtype.d_UINT) then
    dtype.d_FXP
  else dtype.d_FXP

/-- The fractional-width rule shared by the `FIXEDFRAC` and `FIXEDWIDTH`
branches of `_add`, `_sub` and `_mul`: an integer-kind operand mixed with
a fractional-kind operand inherits the fractional operand's width,
otherwise the minimum is taken. -/
def frac_mix (a b : FXP) : ℤ :=
  if a.type.isIntKind ∧ b.type.isFxpKind then b.frac
  else if b.type.isIntKind ∧ a.type.isFxpKind then a.frac
  else min a.frac b.frac

/-- `_add(FXP a, FXP b, modes opmode, bool sat, bool rounding)`. -/
def _add (a b : FXP) (opmode : modes) (sat rounding : Bool) : FXP :=
  let floatboth := a.type = dtype.d_FLOAT ∧ b.type = dtype.d_FLOAT
  let type : dtype := if floatboth then dtype.d_FLOAT else add_type a.type b.type
  let tempval : ℚ :=
    if floatboth then a._val + b._val
    else if b.frac ≤ a.frac then
      (a._val + ((trunc64 b._val * pow2 (a.frac - b.frac) : ℤ) : ℚ)) / a.tup.shift
    else
      (b._val + ((trunc64 a._val * pow2 (b.frac - a.frac) : ℤ) : ℚ)) / b.tup.shift
  let intg : ℤ :=
    match opmode with
    | modes.FULL => max a.intg b.intg + 1
    | modes.FIXEDFRAC => max a.intg b.intg + 1
    | modes.FIXEDWIDTH => max a.intg b.intg
    | modes.MANUAL => 0
  let frac : ℤ :=
    match opmode with
    | modes.FULL => max a.frac b.frac
    | modes.FIXEDFRAC => frac_mix a b
    | modes.FIXEDWIDTH => frac_mix a b
    | modes.MANUAL => 0
  mkFXP tempval ⟨intg, frac, type, opmode, sat, rounding⟩

/-- Two-argument `_add`, which forwards the first operand's policies
(its `_DEBUG` compatibility assertions are preconditions of the theorems
below, not part of the unchecked semantics). -/
def _add2 (a b : FXP) : FXP := _add a b a.opmode a.sat a.rounding

/-- `_sub(FXP a, FXP b, modes opmode, bool sat, bool rounding)`. -/
def _sub (a b : FXP) (opmode : modes) (sat rounding : Bool) : FXP :=
  let floatboth := a.type = dtype.d_FLOAT ∧ b.type = dtype.d_FLOAT
  let type : dtype := if floatboth then dtype.d_FLOAT else sub_type a.type b.type
  let tempval : ℚ :=
    if floatboth then a._val - b._val
    else if b.frac ≤ a.frac then
      (a._val - ((trunc64 b._val * pow2 (a.frac - b.frac) : ℤ) : ℚ)) / a.tup.shift
    else
      (-b._val + ((trunc64 a._val * pow2 (b.frac - a.frac) : ℤ) : ℚ)) / b.tup.shift
  let intg : ℤ :=
    match opmode with
    | modes.FULL => max a.intg b.intg + 1
    | modes.FIXEDFRAC => max a.intg b.intg + 1
    | modes.FIXEDWIDTH => max a.intg b.intg
    | modes.MANUAL => 0
  let frac : ℤ :=
    match opmode with
    | modes.FULL => max a.frac b.frac
    | modes.FIXEDFRAC => frac_mix a b
    | modes.FIXEDWIDTH => frac_mix a b
    | modes.MANUAL => 0
  mkFXP tempval ⟨intg, frac, type, opmode, sat, rounding⟩

/-- Two-argument `_sub`. -/
def _sub2 (a b : FXP) : FXP := _sub a b a.opmode a.sat a.rounding

/-- `_mul(FXP a, FXP b, modes opmode, bool sat, bool rounding)`. -/
def _mul (a b : FXP) (opmode : modes) (sat rounding : Bool) : FXP :=
  let floatboth := a.type = dtype.d_FLOAT ∧ b.type = dtype.d_FLOAT
  let type : dtype := if floatboth then dtype.d_FLOAT else add_type a.type b.type
  let tempval : ℚ :=
    if floatboth then a._val * b._val
    else (a._val * b._val) / (pow2 (a.frac + b.frac) : ℚ)
  let intg : ℤ :=
    match opmode with
    | modes.FULL => a.intg + b.intg
    | modes.FIXEDFRAC => a.intg + b.intg
    | modes.FIXEDWIDTH => max a.intg b.intg
    | modes.MANUAL => 0
  let frac : ℤ :=
    match opmode with
    | modes.FULL => a.frac + b.frac
    | modes.FIXEDFRAC => frac_mix a b
    | modes.FIXEDWIDTH => frac_mix a b
    | modes.MANUAL => 0
  mkFXP tempval ⟨intg, frac, type, opmode, sat, rounding⟩

/-- Two-argument `_mul`. -/
def _mul2 (a b : FXP) : FXP := _mul a b a.opmode a.sat a.rounding

/-- `int(fastfloor(log2(b)))` for a positive integer `b`: the exact
base-2 logarithm floor. -/
def ilog2 (b : ℤ) : ℤ := (Nat.log2 b.toNat : ℤ)

/-- `operator+(FXP a, int b)`. -/
def add_int (a : FXP) (b : ℤ) : FXP :=
  if b = 0 then a.copy
  else if 0 < b then
    if a.type = dtype.d_FLOAT then
      _add2 a (mkFXP (b : ℚ) ⟨1 + ilog2 b, 0, dtype.d_FLOAT, a.opmode, a.sat, a.rounding⟩)
    else
      _add2 a (mkFXP (b : ℚ) ⟨1 + ilog2 b, 0, dtype.d_UINT, a.opmode, a.sat, a.rounding⟩)
  else
    if a.type = dtype.d_FLOAT then
      _add2 a (mkFXP (b : ℚ) ⟨1 + ilog2 (-b), 0, dtype.d_FLOAT, a.opmode, a.sat, a.rounding⟩)
    else
      _add2 a (mkFXP (b : ℚ) ⟨1 + ilog2 (-b), 0, dtype.d_INT, a.opmode, a.sat, a.rounding⟩)

/-- `operator-(FXP a, int b)`. -/
def sub_int (a : FXP) (b : ℤ) : FXP :=
  if b = 0 then a.copy
  else if 0 < b then
    if a.type = dtype.d_FLOAT then
      _sub2 a (mkFXP (b : ℚ) ⟨1 + ilog2 b, 0, dtype.d_FLOAT, a.opmode, a.sat, a.rounding⟩)
    else
      _sub2 a (mkFXP (b : ℚ) ⟨1 + ilog2 b, 0, dtype.d_UINT, a.opmode, a.sat, a.rounding⟩)
  else
    if a.type = dtype.d_FLOAT then
      _sub2 a (mkFXP (b : ℚ) ⟨1 + ilog2 (-b), 0, dtype.d_FLOAT, a.opmode, a.sat, a.rounding⟩)
    else
      _sub2 a (mkFXP (b : ℚ) ⟨1 + ilog2 (-b), 0, dtype.d_INT, a.opmode, a.sat, a.rounding⟩)

/-- `operator*(FXP a, int b)`.  Note the source promotes a negative
non-power-of-two literal with kind `d_FLOAT` in both branches of its
innermost `if`. -/
def mul_int (a : FXP) (b : ℤ) : FXP :=
  if b = 0 then mkFXP 0 a.tup
  else if 0 < b then
    if Int.land b (b - 1) = 0 then shl a (ilog2 b)
    else if a.type = dtype.d_FLOAT then
      _mul2 a (mkFXP (b : ℚ) ⟨1 + ilog2 b, 0, dtype.d_FLOAT, a.opmode, a.sat, a.rounding⟩)
    else
      _mul2 a (mkFXP (b : ℚ) ⟨1 + ilog2 b, 0, dtype.d_UINT, a.opmode, a.sat, a.rounding⟩)
  else
    if Int.land (-b) (-b - 1) = 0 then shl a (ilog2 (-b))
    else if a.type = dtype.d_FLOAT then
      _mul2 a (mkFXP (b : ℚ) ⟨1 + ilog2 (-b), 0, dtype.d_FLOAT, a.opmode, a.sat, a.rounding⟩)
    else
      _mul2 a (mkFXP (b : ℚ) ⟨1 + ilog2 (-b), 0, dtype.d_FLOAT, a.opmode, a.sat, a.rounding⟩)

/-- Well-formedness of an `FXP` object as the library itself produces
them: non-negative widths and, for the non-Float kinds, an integral
stored value lying in the storage range `[-half, full-half)`. -/
def FXP.WF (a : FXP) : Prop :=
  0 ≤ a.intg ∧ 0 ≤ a.frac ∧
    (a.type = dtype.d_FLOAT ∨
      ((⌊a._val⌋ : ℚ) = a._val ∧ -a.tup.half ≤ ⌊a._val⌋ ∧ ⌊a._val⌋ < a.tup.full - a.tup.half))

instance (a : FXP) : Decidable a.WF := by
  unfold FXP.WF
  infer_instance

/-- Concrete operand used by the scalar-promotion witness. -/
def aW4 : FXP := mkFXP 0 (tuple.mk 2 1 dtype.d_FXP modes.FIXEDFRAC false false)

/-- Concrete operands for the commutativity witness. -/
def aW9 : FXP := mkFXP (3/2) (tuple.mk 3 1 dtype.d_FXP modes.FULL false false)

/-- Concrete operands for the commutativity witness. -/
def bW9 : FXP := mkFXP (1/2) (tuple.mk 2 1 dtype.d_FXP modes.FULL false false)

/-! ### Basic facts about the integer helpers -/

theorem pow2_pos (n : ℤ) : 0 < pow2 n := by
  unfold pow2; positivity

theorem pow2_cast_pos (n : ℤ) : (0 : ℚ) < (pow2 n : ℤ) := by
  exact_mod_cast pow2_pos n

theorem shift_pos (t : tuple) : 0 < t.shift := pow2_cast_pos t.frac

theorem full_pos (t : tuple) : 0 < t.full := by
  unfold tuple.full; split <;> exact pow2_pos _

theorem half_nonneg (t : tuple) : 0 ≤ t.half := by
  unfold tuple.half; split
  · exact le_refl 0
  · exact (pow2_pos _).le

theorem one_le_pow2 (n : ℤ) : 1 ≤ pow2 n := pow2_pos n

theorem pow2_add {a b : ℤ} (ha : 0 ≤ a) (hb : 0 ≤ b) :
    pow2 (a + b) = pow2 a * pow2 b := by
  unfold pow2
  rw [Int.toNat_add ha hb, pow_add]

theorem pow2_succ {a : ℤ} (ha : 0 ≤ a) : pow2 (a + 1) = 2 * pow2 a := by
  rw [pow2_add ha (by norm_num), mul_comm]
  norm_num [pow2]

theorem tmod_neg_left (x m : ℤ) : (-x).tmod m = -(x.tmod m) := by
  simp only [Int.tmod_def, Int.neg_tdiv]
  ring

theorem tmod_lower {x m : ℤ} (hm : 0 < m) : -m < x.tmod m := by
  rcases le_or_lt 0 x with hx | hx
  · rw [Int.tmod_eq_emod hx hm.le]
    calc -m < 0 := by omega
    _ ≤ x % m := Int.emod_nonneg x hm.ne.symm
  · have h1 : x.tmod m = -((-x).tmod m) := by rw [tmod_neg_left, neg_neg]
    have h2 : (-x).tmod m = (-x) % m := Int.tmod_eq_emod (by omega) hm.le
    have h3 : (-x) % m < m := Int.emod_lt_of_pos _ hm
    omega

theorem tmod_fix {x m : ℤ} (hm : 0 < m) :
    (if x.tmod m < 0 then x.tmod m + m else x.tmod m) = x % m := by
  have hupper : x.tmod m < m := Int.tmod_lt_of_pos x hm
  have hlower : -m < x.tmod m := tmod_lower hm
  have hcong : x % m = x.tmod m % m := by
    conv_lhs => rw [← Int.tdiv_add_tmod x m]
    rw [add_comm, Int.add_mul_emod_self_left]
  split
  · rename_i hneg
    rw [hcong, ← Int.add_mul_emod_self_left (x.tmod m) m 1, mul_one,
      Int.emod_eq_of_lt (by omega) (by omega)]
  · rename_i hpos
    rw [hcong, Int.emod_eq_of_lt (by omega) hupper]

/-- `_to_signed` rewritten with the mathematical (sign-corrected,
always-non-negative) remainder. -/
theorem to_signed_emod (t : tuple) (v : ℚ) :
    t.to_signed v = (t.rnd (v * t.shift) + t.half) % t.full - t.half := by
  simp only [tuple.to_signed]
  rw [tmod_fix (full_pos t)]

/-- `_to_unsigned` rewritten with the mathematical remainder. -/
theorem to_unsigned_emod (t : tuple) (v : ℚ) :
    t.to_unsigned v = t.rnd (v * t.shift) % t.full := by
  simp only [tuple.to_unsigned]
  rw [tmod_fix (full_pos t)]

/-- For non-Float kinds, `_set_val` is: clamp, scale, round, reduce by
the sign-corrected modulo, re-center.  (For the unsigned kinds
`half = 0`, so the signed and unsigned pipelines coincide in this form.) -/
theorem set_val_eq (t : tuple) (hnf : ¬ t.type = dtype.d_FLOAT) (v : ℚ) :
    t.set_val v =
      (((t.rnd (t.clamp v * t.shift) + t.half) % t.full - t.half : ℤ) : ℚ) := by
  have hhalfu : t.type.isUnsigned = true → t.half = 0 := by
    intro h; unfold tuple.half; rw [if_pos h]
  unfold tuple.set_val
  cases htype : t.type
  case d_FLOAT => exact absurd htype hnf
  case d_INT => simp only [to_signed_emod]
  case d_FXP => simp only [to_signed_emod]
  case d_UINT =>
    have h0 : t.half = 0 := hhalfu (by rw [htype]; rfl)
    simp only [to_unsigned_emod, h0, add_zero, sub_zero]
  case d_UFXP =>
    have h0 : t.half = 0 := hhalfu (by rw [htype]; rfl)
    simp only [to_unsigned_emod, h0, add_zero, sub_zero]

/-! ### Bounds facts -/

theorem pow2_le_pow2 {a b : ℤ} (h : a ≤ b) : pow2 a ≤ pow2 b := by
  unfold pow2
  exact pow_le_pow_right₀ (by norm_num) (Int.toNat_le_toNat h)

theorem full_sub_half (t : tuple) (hif : 0 ≤ t.intg + t.frac) :
    t.full - t.half = pow2 (t.intg + t.frac) := by
  unfold tuple.full tuple.half
  split
  · ring
  · rw [pow2_succ hif]; ring

theorem pinf_nonneg (t : tuple) : 0 ≤ t.pinf := by
  unfold tuple.pinf
  split
  · have h1 : (1 : ℚ) ≤ (pow2 (t.intg + t.frac) : ℤ) := by exact_mod_cast one_le_pow2 _
    have h2 := shift_pos t
    apply div_nonneg <;> linarith
  · have h1 : (1 : ℚ) ≤ (pow2 t.intg : ℤ) := by exact_mod_cast one_le_pow2 _
    linarith

theorem ninf_nonpos (t : tuple) : t.ninf ≤ 0 := by
  unfold tuple.ninf
  have h2 := shift_pos t
  split <;> split
  · exact le_refl 0
  · have h1 : (0 : ℚ) ≤ (pow2 (t.intg + t.frac) : ℤ) := by exact_mod_cast (pow2_pos _).le
    have : (0:ℚ) ≤ (pow2 (t.intg + t.frac) : ℤ) / t.shift := by positivity
    linarith [neg_div (t.shift) ((pow2 (t.intg + t.frac) : ℤ) : ℚ)]
  · exact le_refl 0
  · have h1 : (0 : ℚ) ≤ (pow2 t.intg : ℤ) := by exact_mod_cast (pow2_pos _).le
    linarith

theorem ninf_le_pinf (t : tuple) : t.ninf ≤ t.pinf :=
  (ninf_nonpos t).trans (pinf_nonneg t)

/-- The positive bound, scaled to the storage grid, is an integer that
fits strictly inside the upper storage range. -/
theorem pinf_scaled (t : tuple) (hi : 0 ≤ t.intg) (hf : 0 ≤ t.frac) :
    ∃ B : ℤ, t.pinf = (B : ℚ) / t.shift ∧ 0 ≤ B ∧ B ≤ t.full - t.half - 1 := by
  have hif : 0 ≤ t.intg + t.frac := by omega
  rw [full_sub_half t hif]
  unfold tuple.pinf
  split
  · refine ⟨pow2 (t.intg + t.frac) - 1, by push_cast; ring, by have := one_le_pow2 (t.intg + t.frac); omega, by omega⟩
  · refine ⟨(pow2 t.intg - 1) * pow2 t.frac, ?_, ?_, ?_⟩
    · unfold tuple.shift
      rw [eq_div_iff (ne_of_gt (pow2_cast_pos t.frac))]
      push_cast; ring
    · have h1 := one_le_pow2 t.intg
      have h2 := (pow2_pos t.frac).le
      nlinarith
    · have h3 : pow2 (t.intg + t.frac) = pow2 t.intg * pow2 t.frac := pow2_add hi hf
      have h4 := one_le_pow2 t.frac
      nlinarith [pow2_pos t.intg]

/-- The negative bound, scaled to the storage grid, is exactly `-half`
(for both regimes and for the unsigned kinds, where both sides are 0). -/
theorem ninf_scaled (t : tuple) (hi : 0 ≤ t.intg) (hf : 0 ≤ t.frac) :
    t.ninf = (-t.half : ℤ) / t.shift := by
  unfold tuple.ninf tuple.half
  have hs := shift_pos t
  split <;> split
  · rename_i hu; simp
  · push_cast; ring
  · rename_i hu; simp
  · rename_i hreg hu
    unfold tuple.shift
    rw [eq_div_iff (ne_of_gt (pow2_cast_pos t.frac))]
    rw [pow2_add hi hf]
    push_cast; ring

/-! ### Clamping facts -/

theorem clamp_of_not_sat (t : tuple) (hs : t.sat = false) (v : ℚ) : t.clamp v = v := by
  unfold tuple.clamp
  split
  · rfl
  · rw [hs]; simp

theorem clamp_float (t : tuple) (h : t.type = dtype.d_FLOAT) (v : ℚ) : t.clamp v = v := by
  unfold tuple.clamp
  rw [if_pos h]

theorem clamp_mem (t : tuple) (hnf : ¬ t.type = dtype.d_FLOAT) (hs : t.sat = true) (v : ℚ) :
    t.ninf ≤ t.clamp v ∧ t.clamp v ≤ t.pinf := by
  unfold tuple.clamp
  rw [if_neg hnf, hs, if_pos rfl]
  have hnp := ninf_le_pinf t
  dsimp only
  split_ifs <;> constructor <;> linarith

theorem clamp_nonneg (t : tuple) (v : ℚ) (hv : 0 ≤ v) : 0 ≤ t.clamp v := by
  unfold tuple.clamp
  have hp := pinf_nonneg t
  have hn := ninf_nonpos t
  split
  · exact hv
  · split
    · dsimp only
      split_ifs <;> linarith
    · exact hv

theorem clamp_nonpos (t : tuple) (v : ℚ) (hv : v ≤ 0) : t.clamp v ≤ 0 := by
  unfold tuple.clamp
  have hp := pinf_nonneg t
  have hn := ninf_nonpos t
  split
  · exact hv
  · split
    · dsimp only
      split_ifs <;> linarith
    · exact hv

/-! ### Rounding facts -/

theorem rnd_intCast (t : tuple) (n : ℤ) : t.rnd (n : ℚ) = n := by
  unfold tuple.rnd cround
  have hhalf : ⌊(1/2 : ℚ)⌋ = 0 := by norm_num
  split
  · split
    · rw [Int.floor_int_add, hhalf, add_zero]
    · have : -(n : ℚ) = ((-n : ℤ) : ℚ) := by push_cast; ring
      rw [this, Int.floor_int_add, hhalf, add_zero, neg_neg]
  · exact Int.floor_intCast n

theorem rnd_le (t : tuple) {x : ℚ} {B : ℤ} (h : x ≤ (B : ℚ)) : t.rnd x ≤ B := by
  unfold tuple.rnd cround
  split
  · split
    · have hlt : ⌊x + 1/2⌋ < B + 1 := by
        rw [Int.floor_lt]
        push_cast
        linarith
      omega
    · have hge : -B ≤ ⌊-x + 1/2⌋ := by
        rw [Int.le_floor]
        push_cast [neg_le]
        linarith
      omega
  · calc ⌊x⌋ ≤ ⌊(B : ℚ)⌋ := Int.floor_le_floor h
    _ = B := Int.floor_intCast B

theorem le_rnd (t : tuple) {A : ℤ} {x : ℚ} (h : (A : ℚ) ≤ x) : A ≤ t.rnd x := by
  unfold tuple.rnd cround
  split
  · split
    · have : A ≤ ⌊x + 1/2⌋ := by
        rw [Int.le_floor]
        linarith
      omega
    · have hlt : ⌊-x + 1/2⌋ < -A + 1 := by
        rw [Int.floor_lt]
        push_cast
        linarith
      omega
  · exact Int.le_floor.mpr h

/-! ### The quantizer: stored-value characterisation -/

theorem mkFXP_tup (v : ℚ) (t : tuple) : (mkFXP v t).tup = t := rfl

theorem mkFXP_val (v : ℚ) (t : tuple) (hnf : ¬ t.type = dtype.d_FLOAT) :
    (mkFXP v t).val = t.set_val v / t.shift := by
  unfold FXP.val
  have htype : (mkFXP v t).type = t.type := rfl
  rw [htype, if_neg hnf]
  rfl

theorem mkFXP_val_float (v : ℚ) (t : tuple) (hnf : t.type = dtype.d_FLOAT) :
    (mkFXP v t).val = t.set_val v := by
  unfold FXP.val
  have htype : (mkFXP v t).type = t.type := rfl
  rw [htype, if_pos hnf]
  rfl

theorem set_val_float (t : tuple) (hnf : t.type = dtype.d_FLOAT) (v : ℚ) :
    t.set_val v = v := by
  unfold tuple.set_val
  rw [clamp_float t hnf]
  split <;> simp_all

/-- For every non-Float configuration the stored value is an integer in
the storage range `[-half, full-half)` congruent (modulo the
representable count) to the rounded, scaled, clamped input. -/
theorem set_val_stored (t : tuple) (hnf : ¬ t.type = dtype.d_FLOAT) (v : ℚ) :
    ∃ n : ℤ, t.set_val v = (n : ℚ) ∧ -t.half ≤ n ∧ n < t.full - t.half ∧
      Int.ModEq t.full n (t.rnd (t.clamp v * t.shift)) := by
  set r := t.rnd (t.clamp v * t.shift) with hr
  refine ⟨(r + t.half) % t.full - t.half, ?_, ?_, ?_, ?_⟩
  · rw [set_val_eq t hnf v, ← hr]
  · have := Int.emod_nonneg (r + t.half) (full_pos t).ne'
    omega
  · have := Int.emod_lt_of_pos (r + t.half) (full_pos t)
    omega
  · have h2 : Int.ModEq t.full ((r + t.half) % t.full) (r + t.half) :=
      Int.emod_emod_of_dvd _ dvd_rfl
    simpa using h2.sub_right t.half

/-- With saturation enabled (non-Float kinds), the stored value is an
integer that fits without wrapping, and its grid value respects both
bounds. -/
theorem set_val_sat (t : tuple) (hnf : ¬ t.type = dtype.d_FLOAT) (hi : 0 ≤ t.intg)
    (hf : 0 ≤ t.frac) (hs : t.sat = true) (v : ℚ) :
    t.set_val v = ((t.rnd (t.clamp v * t.shift) : ℤ) : ℚ) ∧
      -t.half ≤ t.rnd (t.clamp v * t.shift) ∧
      t.rnd (t.clamp v * t.shift) ≤ t.full - t.half - 1 ∧
      t.ninf ≤ ((t.rnd (t.clamp v * t.shift) : ℤ) : ℚ) / t.shift ∧
      ((t.rnd (t.clamp v * t.shift) : ℤ) : ℚ) / t.shift ≤ t.pinf := by
  obtain ⟨B, hB, hB0, hBle⟩ := pinf_scaled t hi hf
  obtain ⟨hcl, hcu⟩ := clamp_mem t hnf hs v
  have hsp := shift_pos t
  have hnin := ninf_scaled t hi hf
  have hwu : t.clamp v * t.shift ≤ (B : ℚ) := by
    rw [hB] at hcu
    calc t.clamp v * t.shift ≤ ((B : ℚ) / t.shift) * t.shift :=
      mul_le_mul_of_nonneg_right hcu hsp.le
    _ = (B : ℚ) := div_mul_cancel₀ _ hsp.ne'
  have hwl : (((-t.half : ℤ)) : ℚ) ≤ t.clamp v * t.shift := by
    rw [hnin] at hcl
    calc (((-t.half : ℤ)) : ℚ) = (((-t.half : ℤ) : ℚ) / t.shift) * t.shift :=
      (div_mul_cancel₀ _ hsp.ne').symm
    _ ≤ t.clamp v * t.shift := mul_le_mul_of_nonneg_right hcl hsp.le
  set r := t.rnd (t.clamp v * t.shift) with hrdef
  have hru : r ≤ B := rnd_le t hwu
  have hrl : -t.half ≤ r := le_rnd t hwl
  have hemod : (r + t.half) % t.full = r + t.half :=
    Int.emod_eq_of_lt (by omega) (by omega)
  refine ⟨?_, hrl, by omega, ?_, ?_⟩
  · rw [set_val_eq t hnf v, ← hrdef, hemod]
    push_cast
    ring
  · rw [hnin]
    exact (div_le_div_iff_of_pos_right hsp).mpr (by exact_mod_cast hrl)
  · rw [hB]
    exact (div_le_div_iff_of_pos_right hsp).mpr (by exact_mod_cast hru)

theorem clamp_id_of_mem (t : tuple) {x : ℚ} (h1 : t.ninf ≤ x) (h2 : x ≤ t.pinf) :
    t.clamp x = x := by
  unfold tuple.clamp
  split
  · rfl
  · split
    · dsimp only
      rw [if_neg (not_lt.mpr h2), if_neg (not_lt.mpr h1)]
    · rfl

/-- C6: for every real value `v` and every configuration `c` with
saturation enabled, the real value read back from quantizing `v` into
`c` lies within the closed interval from `c`'s negative bound to `c`'s
positive bound (for the Float kind the bounds are `±inf` and the
statement is trivially true, expressed by the left disjunct). -/
theorem sat_quantize_within_bounds (t : tuple) (v : ℚ) (hi : 0 ≤ t.intg)
    (hf : 0 ≤ t.frac) (hs : t.sat = true) :
    t.type = dtype.d_FLOAT ∨
      (t.ninf ≤ (mkFXP v t).val ∧ (mkFXP v t).val ≤ t.pinf) := by
  by_cases hnf : t.type = dtype.d_FLOAT
  · exact Or.inl hnf
  · right
    obtain ⟨hn, _, _, hl, hu⟩ := set_val_sat t hnf hi hf hs v
    rw [mkFXP_val v t hnf, hn]
    exact ⟨hl, hu⟩

theorem sat_quantize_within_bounds_witness :
    (0 : ℤ) ≤ (3 : ℤ) ∧ (0 : ℤ) ≤ (2 : ℤ) ∧
      (tuple.mk 3 2 dtype.d_FXP modes.FULL true false).sat = true ∧
      ((tuple.mk 3 2 dtype.d_FXP modes.FULL true false).type = dtype.d_FLOAT ∨
        ((tuple.mk 3 2 dtype.d_FXP modes.FULL true false).ninf ≤
            (mkFXP 100 (tuple.mk 3 2 dtype.d_FXP modes.FULL true false)).val ∧
          (mkFXP 100 (tuple.mk 3 2 dtype.d_FXP modes.FULL true false)).val ≤
            (tuple.mk 3 2 dtype.d_FXP modes.FULL true false).pinf)) :=
  ⟨by norm_num, by norm_num, rfl,
    sat_quantize_within_bounds (tuple.mk 3 2 dtype.d_FXP modes.FULL true false) 100
      (by norm_num) (by norm_num) rfl⟩

/-- C7: for every real value `v` and every non-Float configuration with
saturation disabled, the stored integer-equivalent is congruent, modulo
the representable count `full`, to the rounded-or-floored scaled input
`rnd (v * 2^frac)`, and the sign-corrected modulo keeps the stored count
`n + half` in `[0, full)`. -/
theorem wrap_quantize_congruence (t : tuple) (v : ℚ)
    (hnf : ¬ t.type = dtype.d_FLOAT) (hs : t.sat = false) :
    ∃ n : ℤ, (mkFXP v t)._val = (n : ℚ) ∧
      0 ≤ n + t.half ∧ n + t.half < t.full ∧
      Int.ModEq t.full n (t.rnd (v * t.shift)) := by
  obtain ⟨n, hn, h1, h2, h3⟩ := set_val_stored t hnf v
  rw [clamp_of_not_sat t hs] at h3
  exact ⟨n, hn, by omega, by omega, h3⟩

theorem wrap_quantize_congruence_witness :
    (¬ (tuple.mk 3 1 dtype.d_FXP modes.FULL false false).type = dtype.d_FLOAT) ∧
      (tuple.mk 3 1 dtype.d_FXP modes.FULL false false).sat = false ∧
      ∃ n : ℤ, (mkFXP 100 (tuple.mk 3 1 dtype.d_FXP modes.FULL false false))._val = (n : ℚ) ∧
        0 ≤ n + (tuple.mk 3 1 dtype.d_FXP modes.FULL false false).half ∧
        n + (tuple.mk 3 1 dtype.d_FXP modes.FULL false false).half <
          (tuple.mk 3 1 dtype.d_FXP modes.FULL false false).full ∧
        Int.ModEq (tuple.mk 3 1 dtype.d_FXP modes.FULL false false).full n
          ((tuple.mk 3 1 dtype.d_FXP modes.FULL false false).rnd
            (100 * (tuple.mk 3 1 dtype.d_FXP modes.FULL false false).shift)) :=
  ⟨by decide, rfl,
    wrap_quantize_congruence (tuple.mk 3 1 dtype.d_FXP modes.FULL false false) 100
      (by decide) rfl⟩

/-- C8: quantization is idempotent — re-quantizing the read-back real
value of a quantized value, into the same configuration, reproduces the
same object. -/
theorem quantize_idempotent (t : tuple) (v : ℚ) (hi : 0 ≤ t.intg) (hf : 0 ≤ t.frac) :
    mkFXP (mkFXP v t).val t = mkFXP v t := by
  have key : t.set_val ((mkFXP v t).val) = t.set_val v := by
    by_cases hnf : t.type = dtype.d_FLOAT
    · rw [mkFXP_val_float v t hnf, set_val_float t hnf (t.set_val v)]
    · cases hsat : t.sat with
      | false =>
        obtain ⟨n, hn, hl, hu, _⟩ := set_val_stored t hnf v
        rw [mkFXP_val v t hnf, hn]
        rw [set_val_eq t hnf, clamp_of_not_sat t hsat]
        rw [div_mul_cancel₀ _ (shift_pos t).ne', rnd_intCast,
          Int.emod_eq_of_lt (by omega) (by omega)]
        push_cast
        ring
      | true =>
        obtain ⟨hn, hl, hu, hbl, hbu⟩ := set_val_sat t hnf hi hf hsat v
        rw [mkFXP_val v t hnf, hn]
        rw [set_val_eq t hnf, clamp_id_of_mem t hbl hbu]
        rw [div_mul_cancel₀ _ (shift_pos t).ne', rnd_intCast,
          Int.emod_eq_of_lt (by omega) (by omega)]
        push_cast
        ring
  show (⟨t.set_val ((mkFXP v t).val), t.intg, t.frac, t.type, t.opmode, t.sat,
    t.rounding⟩ : FXP) = mkFXP v t
  rw [key]
  rfl

theorem quantize_idempotent_witness :
    (0 : ℤ) ≤ (4 : ℤ) ∧ (0 : ℤ) ≤ (2 : ℤ) ∧
      mkFXP (mkFXP (17/8) (tuple.mk 4 2 dtype.d_FXP modes.FIXEDFRAC false true)).val
          (tuple.mk 4 2 dtype.d_FXP modes.FIXEDFRAC false true) =
        mkFXP (17/8) (tuple.mk 4 2 dtype.d_FXP modes.FIXEDFRAC false true) :=
  ⟨by norm_num, by norm_num,
    quantize_idempotent (tuple.mk 4 2 dtype.d_FXP modes.FIXEDFRAC false true) (17/8)
      (by norm_num) (by norm_num)⟩

theorem ninf_unsigned (t : tuple) (hu : t.type.isUnsigned = true) : t.ninf = 0 := by
  unfold tuple.ninf
  split <;> simp [hu]

/-- C3 counterexample: in checked mode, quantizing the out-of-range
value `9` into a 3-bit signed-integer wraparound configuration aborts
(`none`): the wrapped stored value `-7` flips the sign of the input, so
the sign-preservation assertion at the end of `_set_val` fires.  An
out-of-range input therefore CAN cause the operation to abort in checked
mode, contrary to the claim. -/
theorem overflow_checked_abort_counterexample :
    (tuple.mk 3 0 dtype.d_INT modes.FULL false false).pinf < 9 ∧
      (tuple.mk 3 0 dtype.d_INT modes.FULL false false).set_val_checked 9 = none := by
  have hp0 : pow2 0 = 1 := by decide
  have hp3 : pow2 3 = 8 := by decide
  have hp4 : pow2 4 = 16 := by decide
  constructor
  · norm_num [tuple.pinf, tuple.shift, hp0, hp3]
  · norm_num [tuple.set_val_checked, tuple.set_val, tuple.clamp, to_signed_emod,
      tuple.rnd, tuple.shift, tuple.half, tuple.full, tuple.pinf, tuple.ninf,
      dtype.isUnsigned, hp0, hp3, hp4]

/-- C3 amended: an out-of-range input is resolved by the overflow policy
and never itself signals an error — with `Saturate` the checked
quantizer always completes (returning the clamped stored value), and
with `Wraparound` the unchecked quantizer stores a value congruent to
the scaled input modulo the representable count; however, in checked
mode a `Wraparound` overflow may abort via the sign-preservation
assertion (see the counterexample). -/
theorem overflow_policy_resolution (t : tuple) (v : ℚ)
    (hi : 0 ≤ t.intg) (hf : 0 ≤ t.frac) (hw : t.intg + t.frac < 63)
    (hfr : t.type = dtype.d_INT ∨ t.type = dtype.d_UINT → t.frac = 0) :
    (t.sat = true → t.set_val_checked v = some (t.set_val v)) ∧
      (t.sat = false → ¬ t.type = dtype.d_FLOAT →
        ∃ n : ℤ, t.set_val v = (n : ℚ) ∧ Int.ModEq t.full n (t.rnd (v * t.shift))) := by
  constructor
  · intro hsat
    have hsign : ¬ v * t.set_val v < 0 := by
      by_cases hnf : t.type = dtype.d_FLOAT
      · rw [set_val_float t hnf]
        exact not_lt.mpr (mul_self_nonneg v)
      · obtain ⟨hn, _, _, _, _⟩ := set_val_sat t hnf hi hf hsat v
        rcases le_or_lt 0 v with hv | hv
        · have h1 : (0:ℚ) ≤ t.clamp v * t.shift :=
            mul_nonneg (clamp_nonneg t v hv) (shift_pos t).le
          have h2 : (0:ℤ) ≤ t.rnd (t.clamp v * t.shift) :=
            le_rnd t (by exact_mod_cast h1)
          have h3 : (0:ℚ) ≤ ((t.rnd (t.clamp v * t.shift) : ℤ) : ℚ) := by exact_mod_cast h2
          rw [hn]
          nlinarith
        · have h1 : t.clamp v * t.shift ≤ (0:ℚ) :=
            mul_nonpos_iff.mpr (Or.inr ⟨clamp_nonpos t v hv.le, (shift_pos t).le⟩)
          have h2 : t.rnd (t.clamp v * t.shift) ≤ (0:ℤ) :=
            rnd_le t (by exact_mod_cast h1)
          have h3 : ((t.rnd (t.clamp v * t.shift) : ℤ) : ℚ) ≤ 0 := by exact_mod_cast h2
          rw [hn]
          nlinarith
    have hclu : t.type.isUnsigned = true → 0 ≤ t.clamp v := by
      intro hu
      have hnf : ¬ t.type = dtype.d_FLOAT := by
        cases htype : t.type <;> simp_all [dtype.isUnsigned]
      have h1 := (clamp_mem t hnf hsat v).1
      rw [ninf_unsigned t hu] at h1
      exact h1
    cases htype : t.type
    case d_INT =>
      have hfr0 : t.frac = 0 := hfr (Or.inl htype)
      have hw2 : t.intg < 63 := by omega
      simp [tuple.set_val_checked, htype, hw, hw2, hfr0, hsign]
    case d_UINT =>
      have hfr0 : t.frac = 0 := hfr (Or.inr htype)
      have hw2 : t.intg < 63 := by omega
      have hcl : 0 ≤ t.clamp v := hclu (by rw [htype]; rfl)
      simp [tuple.set_val_checked, htype, hw, hw2, hfr0, hcl, hsign]
    case d_FXP =>
      simp [tuple.set_val_checked, htype, hw, hsign]
    case d_UFXP =>
      have hcl : 0 ≤ t.clamp v := hclu (by rw [htype]; rfl)
      simp [tuple.set_val_checked, htype, hw, hcl, hsign]
    case d_FLOAT =>
      simp [tuple.set_val_checked, htype, hw, hsign]
  · intro hsat hnf
    obtain ⟨n, hn, _, _, h3⟩ := set_val_stored t hnf v
    rw [clamp_of_not_sat t hsat] at h3
    exact ⟨n, hn, h3⟩

theorem overflow_policy_resolution_witness :
    (0 : ℤ) ≤ (3 : ℤ) ∧ (0 : ℤ) ≤ (1 : ℤ) ∧ (3 : ℤ) + 1 < 63 ∧
      ((tuple.mk 3 1 dtype.d_FXP modes.FULL true true).type = dtype.d_INT ∨
          (tuple.mk 3 1 dtype.d_FXP modes.FULL true true).type = dtype.d_UINT →
        (tuple.mk 3 1 dtype.d_FXP modes.FULL true true).frac = 0) ∧
      (((tuple.mk 3 1 dtype.d_FXP modes.FULL true true).sat = true →
          (tuple.mk 3 1 dtype.d_FXP modes.FULL true true).set_val_checked 100 =
            some ((tuple.mk 3 1 dtype.d_FXP modes.FULL true true).set_val 100)) ∧
        ((tuple.mk 3 1 dtype.d_FXP modes.FULL true true).sat = false →
          ¬ (tuple.mk 3 1 dtype.d_FXP modes.FULL true true).type = dtype.d_FLOAT →
          ∃ n : ℤ, (tuple.mk 3 1 dtype.d_FXP modes.FULL true true).set_val 100 = (n : ℚ) ∧
            Int.ModEq (tuple.mk 3 1 dtype.d_FXP modes.FULL true true).full n
              ((tuple.mk 3 1 dtype.d_FXP modes.FULL true true).rnd
                (100 * (tuple.mk 3 1 dtype.d_FXP modes.FULL true true).shift)))) :=
  ⟨by norm_num, by norm_num, by norm_num, by decide,
    overflow_policy_resolution (tuple.mk 3 1 dtype.d_FXP modes.FULL true true) 100
      (by norm_num) (by norm_num) (by norm_num) (by decide)⟩

theorem isUnsigned_iff (t : tuple) :
    t.type.isUnsigned = true ↔ (t.type = dtype.d_UINT ∨ t.type = dtype.d_UFXP) := by
  cases t.type <;> simp [dtype.isUnsigned]

/-- C2 counterexample: for `intg = frac = 16` the combined width is
`32 ≥ 31`, so the claim demands the integer-width-only approximation
`2^16 - 1`; but the bounds calculator tests the two widths separately
(`intg < 31` and `frac < 31` both hold) and still uses the exact
formula `(2^32 - 1) / 2^16`. -/
theorem bounds_threshold_counterexample :
    ¬ ((16 : ℤ) + 16 < 31) ∧
      (tuple.mk 16 16 dtype.d_FXP modes.FULL true true).pinf = ((2 ^ 32 - 1 : ℚ)) / 2 ^ 16 ∧
      ¬ (tuple.mk 16 16 dtype.d_FXP modes.FULL true true).pinf = 2 ^ 16 - 1 := by
  have hp32 : pow2 32 = 4294967296 := by decide
  have hp16 : pow2 16 = 65536 := by decide
  refine ⟨by norm_num, ?_, ?_⟩
  · norm_num [tuple.pinf, tuple.shift, hp32, hp16]
  · norm_num [tuple.pinf, tuple.shift, hp32, hp16]

/-- C2 amended: for every non-Float configuration the bounds calculator
uses the exact formulas (positive `(2^(intg+frac) - 1)/2^frac`, negative
`-2^(intg+frac)/2^frac` for signed kinds and `0` for unsigned kinds)
precisely when `intg < 31` and `frac < 31`, and the integer-width-only
approximation (`2^intg - 1`, `-2^intg` or `0`) when `intg ≥ 31` or
`frac ≥ 31` — the switch tests the widths separately, not their sum. -/
theorem bounds_formulas (t : tuple) (_hnf : ¬ t.type = dtype.d_FLOAT) :
    (t.intg < 31 ∧ t.frac < 31 →
      t.pinf = ((2 ^ (t.intg + t.frac).toNat : ℚ) - 1) / 2 ^ t.frac.toNat ∧
      t.ninf = (if t.type = dtype.d_UINT ∨ t.type = dtype.d_UFXP then 0
        else -(2 ^ (t.intg + t.frac).toNat : ℚ) / 2 ^ t.frac.toNat)) ∧
    (¬ (t.intg < 31 ∧ t.frac < 31) →
      t.pinf = (2 ^ t.intg.toNat : ℚ) - 1 ∧
      t.ninf = (if t.type = dtype.d_UINT ∨ t.type = dtype.d_UFXP then 0
        else -(2 ^ t.intg.toNat : ℚ))) := by
  have hcast1 : ((pow2 (t.intg + t.frac) : ℤ) : ℚ) = 2 ^ (t.intg + t.frac).toNat := by
    unfold pow2; push_cast; ring
  have hcast2 : t.shift = (2 : ℚ) ^ t.frac.toNat := by
    unfold tuple.shift pow2; push_cast; ring
  have hcast3 : ((pow2 t.intg : ℤ) : ℚ) = 2 ^ t.intg.toNat := by
    unfold pow2; push_cast; ring
  constructor
  · intro h
    constructor
    · unfold tuple.pinf
      rw [if_pos h, hcast1, hcast2]
    · unfold tuple.ninf
      rw [if_pos h]
      by_cases hu : t.type.isUnsigned = true
      · rw [if_pos hu, if_pos ((isUnsigned_iff t).mp hu)]
      · rw [if_neg hu, if_neg (fun hor => hu ((isUnsigned_iff t).mpr hor)), hcast1, hcast2]
  · intro h
    constructor
    · unfold tuple.pinf
      rw [if_neg h, hcast3]
    · unfold tuple.ninf
      rw [if_neg h]
      by_cases hu : t.type.isUnsigned = true
      · rw [if_pos hu, if_pos ((isUnsigned_iff t).mp hu)]
      · rw [if_neg hu, if_neg (fun hor => hu ((isUnsigned_iff t).mpr hor)), hcast3]

theorem bounds_formulas_witness :
    (¬ (tuple.mk 33 2 dtype.d_FXP modes.FULL false false).type = dtype.d_FLOAT) ∧
      (((tuple.mk 33 2 dtype.d_FXP modes.FULL false false).intg < 31 ∧
          (tuple.mk 33 2 dtype.d_FXP modes.FULL false false).frac < 31 →
        (tuple.mk 33 2 dtype.d_FXP modes.FULL false false).pinf =
          ((2 ^ ((tuple.mk 33 2 dtype.d_FXP modes.FULL false false).intg +
            (tuple.mk 33 2 dtype.d_FXP modes.FULL false false).frac).toNat : ℚ) - 1) /
            2 ^ ((tuple.mk 33 2 dtype.d_FXP modes.FULL false false).frac).toNat ∧
        (tuple.mk 33 2 dtype.d_FXP modes.FULL false false).ninf =
          (if (tuple.mk 33 2 dtype.d_FXP modes.FULL false false).type = dtype.d_UINT ∨
              (tuple.mk 33 2 dtype.d_FXP modes.FULL false false).type = dtype.d_UFXP then 0
            else -(2 ^ ((tuple.mk 33 2 dtype.d_FXP modes.FULL false false).intg +
              (tuple.mk 33 2 dtype.d_FXP modes.FULL false false).frac).toNat : ℚ) /
              2 ^ ((tuple.mk 33 2 dtype.d_FXP modes.FULL false false).frac).toNat)) ∧
      (¬ ((tuple.mk 33 2 dtype.d_FXP modes.FULL false false).intg < 31 ∧
          (tuple.mk 33 2 dtype.d_FXP modes.FULL false false).frac < 31) →
        (tuple.mk 33 2 dtype.d_FXP modes.FULL false false).pinf =
          (2 ^ ((tuple.mk 33 2 dtype.d_FXP modes.FULL false false).intg).toNat : ℚ) - 1 ∧
        (tuple.mk 33 2 dtype.d_FXP modes.FULL false false).ninf =
          (if (tuple.mk 33 2 dtype.d_FXP modes.FULL false false).type = dtype.d_UINT ∨
              (tuple.mk 33 2 dtype.d_FXP modes.FULL false false).type = dtype.d_UFXP then 0
            else -(2 ^ ((tuple.mk 33 2 dtype.d_FXP modes.FULL false false).intg).toNat : ℚ)))) :=
  ⟨by decide, bounds_formulas (tuple.mk 33 2 dtype.d_FXP modes.FULL false false) (by decide)⟩

/-- C1 (code bug): `operator>>` computes the result integer width with
`fastmin(a.intg - b, 0)` where the spec (and the symmetric
`operator<<`, which uses `fastmax`) requires `max(a.intg - b, 0)`.
Shifting an `(intg=4, frac=0)` signed-fixed value holding `8` right by
`1` therefore yields integer width `0` instead of `3`, and the shifted
value `4` is then saturated to the crippled bound `1/2` instead of
staying `4`. -/
theorem shr_intg_bug_eval :
    (shr (mkFXP 8 (tuple.mk 4 0 dtype.d_FXP modes.FULL true false)) 1).intg = 0 ∧
      ¬ (shr (mkFXP 8 (tuple.mk 4 0 dtype.d_FXP modes.FULL true false)) 1).intg =
          max (4 - 1) 0 ∧
      (shr (mkFXP 8 (tuple.mk 4 0 dtype.d_FXP modes.FULL true false)) 1).frac = 1 ∧
      (shr (mkFXP 8 (tuple.mk 4 0 dtype.d_FXP modes.FULL true false)) 1).val = 1/2 := by
  have hp0 : pow2 0 = 1 := by decide
  have hp1 : pow2 1 = 2 := by decide
  have hp2 : pow2 2 = 4 := by decide
  have hp4 : pow2 4 = 16 := by decide
  have hp5 : pow2 5 = 32 := by decide
  refine ⟨by decide, by decide, by decide, ?_⟩
  norm_num +decide [shr, mkFXP, FXP.val, FXP.tup, tuple.set_val, tuple.clamp, to_signed_emod,
    tuple.rnd, tuple.shift, tuple.half, tuple.full, tuple.pinf, tuple.ninf,
    dtype.isUnsigned, hp0, hp1, hp2, hp4, hp5]

/-- C5: adding a 3-bit unsigned integer holding `3` to a 3-bit signed
integer holding `-3` (FixedFrac mode, identical policies, any
saturation/rounding setting) produces kind SignedInt (`d_INT`) with
`intg = 4`, `frac = 0` and real value `0`; the UnsignedInt/SignedInt
promotion is symmetric, so both operand orders give the same object. -/
theorem uint_int_add_example (s r : Bool) :
    (_add2 (mkFXP 3 (tuple.mk 3 0 dtype.d_UINT modes.FIXEDFRAC s r))
        (mkFXP (-3) (tuple.mk 3 0 dtype.d_INT modes.FIXEDFRAC s r))).type = dtype.d_INT ∧
    (_add2 (mkFXP 3 (tuple.mk 3 0 dtype.d_UINT modes.FIXEDFRAC s r))
        (mkFXP (-3) (tuple.mk 3 0 dtype.d_INT modes.FIXEDFRAC s r))).intg = 4 ∧
    (_add2 (mkFXP 3 (tuple.mk 3 0 dtype.d_UINT modes.FIXEDFRAC s r))
        (mkFXP (-3) (tuple.mk 3 0 dtype.d_INT modes.FIXEDFRAC s r))).frac = 0 ∧
    (_add2 (mkFXP 3 (tuple.mk 3 0 dtype.d_UINT modes.FIXEDFRAC s r))
        (mkFXP (-3) (tuple.mk 3 0 dtype.d_INT modes.FIXEDFRAC s r))).val = 0 ∧
    _add2 (mkFXP 3 (tuple.mk 3 0 dtype.d_UINT modes.FIXEDFRAC s r))
        (mkFXP (-3) (tuple.mk 3 0 dtype.d_INT modes.FIXEDFRAC s r)) =
      _add2 (mkFXP (-3) (tuple.mk 3 0 dtype.d_INT modes.FIXEDFRAC s r))
        (mkFXP 3 (tuple.mk 3 0 dtype.d_UINT modes.FIXEDFRAC s r)) := by
  have hp0 : pow2 0 = 1 := by decide
  have hp3 : pow2 3 = 8 := by decide
  have hp4 : pow2 4 = 16 := by decide
  have hp5 : pow2 5 = 32 := by decide
  have hc : ⌈(-3 : ℚ)⌉ = -3 := by
    rw [show ((-3 : ℚ)) = (((-3 : ℤ)) : ℚ) by norm_num, Int.ceil_intCast]
  cases s <;> cases r <;>
    norm_num +decide [hc, _add2, _add, add_type, frac_mix, mkFXP, FXP.tup, FXP.val,
      tuple.set_val, tuple.clamp, to_signed_emod, to_unsigned_emod, tuple.rnd, cround,
      trunc64, tuple.shift, tuple.half, tuple.full, tuple.pinf, tuple.ninf,
      dtype.isUnsigned, dtype.isIntKind, dtype.isFxpKind, hp0, hp3, hp4, hp5]

theorem land_natCast (m n : ℕ) : Int.land (m : ℤ) (n : ℤ) = ((m &&& n : ℕ) : ℤ) := rfl

theorem nat_land_two_pow_pred (k : ℕ) : ((2 ^ k : ℕ) &&& (2 ^ k - 1 : ℕ)) = 0 := by
  apply Nat.eq_of_testBit_eq
  intro i
  rw [Nat.testBit_land, Nat.testBit_two_pow_sub_one, Nat.zero_testBit]
  rcases eq_or_ne k i with h | h
  · subst h
    simp
  · simp [Nat.testBit_two_pow_of_ne h]

/-- The power-of-two test `(b & (b-1)) == 0` of `operator*` holds at
`b = 2^k`. -/
theorem land_two_pow_pred (k : ℕ) : Int.land ((2 : ℤ) ^ k) ((2 : ℤ) ^ k - 1) = 0 := by
  have h1 : ((2 : ℤ) ^ k) = ((2 ^ k : ℕ) : ℤ) := by push_cast; ring
  have h2 : ((2 : ℤ) ^ k - 1) = (((2 ^ k - 1 : ℕ)) : ℤ) := by
    have : (1 : ℕ) ≤ 2 ^ k := Nat.one_le_two_pow
    push_cast [this]
    ring
  rw [h2, h1, land_natCast, nat_land_two_pow_pred]
  rfl

theorem ilog2_two_pow (k : ℕ) : ilog2 ((2 : ℤ) ^ k) = (k : ℤ) := by
  unfold ilog2
  rw [show ((2 : ℤ) ^ k) = ((2 ^ k : ℕ) : ℤ) by push_cast; ring, Int.toNat_natCast,
    Nat.log2_two_pow]

/-- C10: multiplying by a negative integer literal whose absolute value
is an exact power of two, `b = -(2^k)`, is rewritten by `operator*` as a
left shift by `log2(-b) = k`: the result is identical to multiplying by
`+(2^k)` — the literal's negative sign is discarded rather than negating
the product. -/
theorem scalar_mul_neg_pow2_shift (a : FXP) (k : ℕ) :
    mul_int a (-(2 ^ k) : ℤ) = shl a (k : ℤ) ∧
      mul_int a (-(2 ^ k) : ℤ) = mul_int a ((2 ^ k : ℤ)) := by
  have hpow_pos : (0 : ℤ) < 2 ^ k := by positivity
  have hland := land_two_pow_pred k
  have hlog := ilog2_two_pow k
  have hlhs : mul_int a (-(2 ^ k) : ℤ) = shl a (k : ℤ) := by
    unfold mul_int
    rw [if_neg (by omega), if_neg (by omega), neg_neg, if_pos hland, hlog]
  have hrhs : mul_int a ((2 ^ k : ℤ)) = shl a (k : ℤ) := by
    unfold mul_int
    rw [if_neg (by omega), if_pos hpow_pos, if_pos hland, hlog]
  exact ⟨hlhs, hlhs.trans hrhs.symm⟩

/-- C4 counterexample: multiplying the non-Float value
`(intg=2, frac=1, d_FXP, FixedFrac)` holding `1/2` by the literal `-3`
is NOT the claimed dispatch through the value-times-value operator with
the literal promoted to a SignedInt of width `1 + floor(log2 3) = 2`:
the source promotes a negative non-power-of-two multiply literal with
kind `d_FLOAT` (line 823), which changes the inferred fractional width
(0 instead of 1). -/
theorem scalar_mul_dispatch_counterexample :
    ¬ mul_int (mkFXP (1/2) (tuple.mk 2 1 dtype.d_FXP modes.FIXEDFRAC false false)) (-3) =
        _mul2 (mkFXP (1/2) (tuple.mk 2 1 dtype.d_FXP modes.FIXEDFRAC false false))
          (mkFXP ((-3 : ℤ) : ℚ)
            (tuple.mk (1 + ilog2 3) 0 dtype.d_INT modes.FIXEDFRAC false false)) := by
  intro h
  have h1 : (mul_int (mkFXP (1/2) (tuple.mk 2 1 dtype.d_FXP modes.FIXEDFRAC false false))
      (-3)).frac = 0 := by decide
  have h2 : (_mul2 (mkFXP (1/2) (tuple.mk 2 1 dtype.d_FXP modes.FIXEDFRAC false false))
      (mkFXP ((-3 : ℤ) : ℚ)
        (tuple.mk (1 + ilog2 3) 0 dtype.d_INT modes.FIXEDFRAC false false))).frac = 1 := by
    decide
  rw [h] at h1
  rw [h2] at h1
  exact absurd h1 (by norm_num)

/-- C4 amended: for every nonzero literal `b`, scalar add and subtract
promote the literal to width `1 + floor(log2 |b|)`, zero fractional
width, kind Float when the other operand is Float, else UnsignedInt for
a positive literal and SignedInt for a negative one, dispatching through
the value-times-value operator.  Scalar multiply only does so for
non-power-of-two literals: a power-of-two literal (of either sign)
becomes a left shift, a positive non-power-of-two literal is promoted to
UnsignedInt (or Float), and a negative non-power-of-two literal is
promoted with kind Float even for a non-Float operand. -/
theorem scalar_promotion (a : FXP) (b : ℤ) (hb : ¬ b = 0) :
    (add_int a b = _add2 a (mkFXP (b : ℚ)
        (tuple.mk (1 + ilog2 (if 0 < b then b else -b)) 0
          (if a.type = dtype.d_FLOAT then dtype.d_FLOAT
            else if 0 < b then dtype.d_UINT else dtype.d_INT)
          a.opmode a.sat a.rounding))) ∧
    (sub_int a b = _sub2 a (mkFXP (b : ℚ)
        (tuple.mk (1 + ilog2 (if 0 < b then b else -b)) 0
          (if a.type = dtype.d_FLOAT then dtype.d_FLOAT
            else if 0 < b then dtype.d_UINT else dtype.d_INT)
          a.opmode a.sat a.rounding))) ∧
    (0 < b → Int.land b (b - 1) = 0 → mul_int a b = shl a (ilog2 b)) ∧
    (b < 0 → Int.land (-b) (-b - 1) = 0 → mul_int a b = shl a (ilog2 (-b))) ∧
    (0 < b → ¬ Int.land b (b - 1) = 0 → mul_int a b = _mul2 a (mkFXP (b : ℚ)
        (tuple.mk (1 + ilog2 b) 0
          (if a.type = dtype.d_FLOAT then dtype.d_FLOAT else dtype.d_UINT)
          a.opmode a.sat a.rounding))) ∧
    (b < 0 → ¬ Int.land (-b) (-b - 1) = 0 → mul_int a b = _mul2 a (mkFXP (b : ℚ)
        (tuple.mk (1 + ilog2 (-b)) 0 dtype.d_FLOAT a.opmode a.sat a.rounding))) := by
  have hbt : (0 < b) ∨ (b < 0) := by omega
  refine ⟨?_, ?_, ?_, ?_, ?_, ?_⟩
  · unfold add_int
    rcases hbt with hp | hn
    · simp only [if_neg hb, if_pos hp]
      by_cases hfl : a.type = dtype.d_FLOAT
      · simp only [if_pos hfl]
      · simp only [if_neg hfl]
    · simp only [if_neg hb, if_neg (show ¬ (0 < b) by omega)]
      by_cases hfl : a.type = dtype.d_FLOAT
      · simp only [if_pos hfl]
      · simp only [if_neg hfl]
  · unfold sub_int
    rcases hbt with hp | hn
    · simp only [if_neg hb, if_pos hp]
      by_cases hfl : a.type = dtype.d_FLOAT
      · simp only [if_pos hfl]
      · simp only [if_neg hfl]
    · simp only [if_neg hb, if_neg (show ¬ (0 < b) by omega)]
      by_cases hfl : a.type = dtype.d_FLOAT
      · simp only [if_pos hfl]
      · simp only [if_neg hfl]
  · intro hp hl
    unfold mul_int
    simp only [if_neg hb, if_pos hp, if_pos hl]
  · intro hn hl
    unfold mul_int
    simp only [if_neg hb, if_neg (show ¬ (0 < b) by omega), if_pos hl]
  · intro hp hl
    unfold mul_int
    simp only [if_neg hb, if_pos hp, if_neg hl]
    by_cases hfl : a.type = dtype.d_FLOAT
    · simp only [if_pos hfl]
    · simp only [if_neg hfl]
  · intro hn hl
    unfold mul_int
    simp only [if_neg hb, if_neg (show ¬ (0 < b) by omega), if_neg hl]
    by_cases hfl : a.type = dtype.d_FLOAT
    · simp only [if_pos hfl]
    · simp only [if_neg hfl]

theorem scalar_promotion_witness :
    (¬ (-3 : ℤ) = 0) ∧
    (
    (add_int aW4 (-3 : ℤ) = _add2 aW4 (mkFXP ((-3 : ℤ) : ℚ)
        (tuple.mk (1 + ilog2 (if 0 < (-3 : ℤ) then (-3 : ℤ) else -(-3 : ℤ))) 0
          (if aW4.type = dtype.d_FLOAT then dtype.d_FLOAT
            else if 0 < (-3 : ℤ) then dtype.d_UINT else dtype.d_INT)
          aW4.opmode aW4.sat aW4.rounding))) ∧
    (sub_int aW4 (-3 : ℤ) = _sub2 aW4 (mkFXP ((-3 : ℤ) : ℚ)
        (tuple.mk (1 + ilog2 (if 0 < (-3 : ℤ) then (-3 : ℤ) else -(-3 : ℤ))) 0
          (if aW4.type = dtype.d_FLOAT then dtype.d_FLOAT
            else if 0 < (-3 : ℤ) then dtype.d_UINT else dtype.d_INT)
          aW4.opmode aW4.sat aW4.rounding))) ∧
    (0 < (-3 : ℤ) → Int.land (-3 : ℤ) ((-3 : ℤ) - 1) = 0 → mul_int aW4 (-3 : ℤ) = shl aW4 (ilog2 (-3 : ℤ))) ∧
    ((-3 : ℤ) < 0 → Int.land (-(-3 : ℤ)) (-(-3 : ℤ) - 1) = 0 → mul_int aW4 (-3 : ℤ) = shl aW4 (ilog2 (-(-3 : ℤ)))) ∧
    (0 < (-3 : ℤ) → ¬ Int.land (-3 : ℤ) ((-3 : ℤ) - 1) = 0 → mul_int aW4 (-3 : ℤ) = _mul2 aW4 (mkFXP ((-3 : ℤ) : ℚ)
        (tuple.mk (1 + ilog2 (-3 : ℤ)) 0
          (if aW4.type = dtype.d_FLOAT then dtype.d_FLOAT else dtype.d_UINT)
          aW4.opmode aW4.sat aW4.rounding))) ∧
    ((-3 : ℤ) < 0 → ¬ Int.land (-(-3 : ℤ)) (-(-3 : ℤ) - 1) = 0 → mul_int aW4 (-3 : ℤ) = _mul2 aW4 (mkFXP ((-3 : ℤ) : ℚ)
        (tuple.mk (1 + ilog2 (-(-3 : ℤ))) 0 dtype.d_FLOAT aW4.opmode aW4.sat aW4.rounding)))) :=
  ⟨by decide, scalar_promotion aW4 (-3) (by decide)⟩

/-! ### Helpers for the commutativity claims -/

theorem trunc64_intCast (n : ℤ) : trunc64 ((n : ℤ) : ℚ) = n := by
  unfold trunc64
  split
  · exact Int.floor_intCast n
  · exact Int.ceil_intCast n

theorem trunc64_of_floor_eq {x : ℚ} (h : (⌊x⌋ : ℚ) = x) : trunc64 x = ⌊x⌋ := by
  unfold trunc64
  split
  · rfl
  · rw [← h, Int.ceil_intCast, Int.floor_intCast]

theorem add_type_comm (x y : dtype) : add_type x y = add_type y x := by
  cases x <;> cases y <;> rfl

theorem sub_type_comm (x y : dtype) : sub_type x y = sub_type y x := by
  cases x <;> cases y <;> rfl

theorem sub_type_signed (x y : dtype) : (sub_type x y).isUnsigned = false := by
  cases x <;> cases y <;> rfl

theorem sub_type_not_float (x y : dtype) : ¬ sub_type x y = dtype.d_FLOAT := by
  cases x <;> cases y <;> decide

theorem frac_mix_comm (a b : FXP) : frac_mix a b = frac_mix b a := by
  cases hA : a.type <;> cases hB : b.type <;>
    simp [frac_mix, dtype.isIntKind, dtype.isFxpKind, hA, hB, min_comm]

/-- Quantizing a value that already lies exactly on the storage grid of
an exact-regime configuration stores it unchanged. -/
theorem set_val_int_exact (t : tuple) (hnf : ¬ t.type = dtype.d_FLOAT)
    (hi : 0 ≤ t.intg) (hf : 0 ≤ t.frac) (hreg : t.intg < 31 ∧ t.frac < 31)
    (n : ℤ) (hl : -t.half ≤ n) (hu : n ≤ t.full - t.half - 1) :
    t.set_val ((n : ℚ) / t.shift) = (n : ℚ) := by
  have hsp := shift_pos t
  have hif : 0 ≤ t.intg + t.frac := by omega
  have hfsh : t.full - t.half = pow2 (t.intg + t.frac) := full_sub_half t hif
  have hpinf : t.pinf = ((pow2 (t.intg + t.frac) : ℤ) - 1 : ℤ) / t.shift := by
    unfold tuple.pinf
    rw [if_pos hreg]
    push_cast
    ring
  have hninf := ninf_scaled t hi hf
  have hmem_u : (n : ℚ) / t.shift ≤ t.pinf := by
    rw [hpinf]
    apply (div_le_div_iff_of_pos_right hsp).mpr
    exact_mod_cast (by omega : n ≤ pow2 (t.intg + t.frac) - 1)
  have hmem_l : t.ninf ≤ (n : ℚ) / t.shift := by
    rw [hninf]
    apply (div_le_div_iff_of_pos_right hsp).mpr
    exact_mod_cast hl
  rw [set_val_eq t hnf, clamp_id_of_mem t hmem_l hmem_u,
    div_mul_cancel₀ _ hsp.ne', rnd_intCast,
    Int.emod_eq_of_lt (by omega) (by omega)]
  push_cast
  ring

/-- The stored value of a well-formed non-Float object, with its bounds
in the uniform form `[-2^(intg+frac), 2^(intg+frac) - 1]` (valid for the
signed and the unsigned kinds alike). -/
theorem wf_val_bounds (x : FXP) (hx : x.WF) (hnf : ¬ x.type = dtype.d_FLOAT) :
    ∃ n : ℤ, (n : ℚ) = x._val ∧ -pow2 (x.intg + x.frac) ≤ n ∧
      n ≤ pow2 (x.intg + x.frac) - 1 := by
  obtain ⟨hi, hf, hint⟩ := hx
  rcases hint with h | ⟨hival, hl, hu⟩
  · exact absurd h hnf
  · refine ⟨⌊x._val⌋, hival, ?_, ?_⟩
    · have hhalf : x.tup.half = 0 ∨ x.tup.half = pow2 (x.intg + x.frac) := by
        unfold tuple.half FXP.tup
        split
        · exact Or.inl rfl
        · exact Or.inr rfl
      have hp := pow2_pos (x.intg + x.frac)
      rcases hhalf with h0 | hh
      · rw [h0] at hl
        omega
      · rw [hh] at hl
        exact hl
    · have hfull : x.tup.full - x.tup.half = pow2 (x.tup.intg + x.tup.frac) :=
        full_sub_half x.tup (show (0:ℤ) ≤ x.intg + x.frac by omega)
      have e : pow2 (x.tup.intg + x.tup.frac) = pow2 (x.intg + x.frac) := rfl
      omega

/-- `_add` is symmetric in its operands (for a compatible pair: no
Float/non-Float mixing, and integral stored values as the library
guarantees for non-Float objects). -/
theorem add_symm_core (a b : FXP) (m : modes) (s r : Bool)
    (hfl : a.type = dtype.d_FLOAT ↔ b.type = dtype.d_FLOAT)
    (ha : a.type = dtype.d_FLOAT ∨ (⌊a._val⌋ : ℚ) = a._val)
    (hb : b.type = dtype.d_FLOAT ∨ (⌊b._val⌋ : ℚ) = b._val) :
    _add a b m s r = _add b a m s r := by
  simp only [_add]
  congr 1
  · by_cases hffl : a.type = dtype.d_FLOAT ∧ b.type = dtype.d_FLOAT
    · rw [if_pos hffl, if_pos ⟨hffl.2, hffl.1⟩]
      ring
    · rw [if_neg hffl, if_neg (show ¬ (b.type = dtype.d_FLOAT ∧ a.type = dtype.d_FLOAT) from fun hh => hffl ⟨hh.2, hh.1⟩)]
      rcases lt_trichotomy a.frac b.frac with hlt | heq | hgt
      · rw [if_neg (not_le.mpr hlt), if_pos hlt.le]
      · have haf : ¬ a.type = dtype.d_FLOAT := fun h => hffl ⟨h, hfl.mp h⟩
        have hbf : ¬ b.type = dtype.d_FLOAT := fun h => hffl ⟨hfl.mpr h, h⟩
        have hai : (⌊a._val⌋ : ℚ) = a._val := ha.resolve_left haf
        have hbi : (⌊b._val⌋ : ℚ) = b._val := hb.resolve_left hbf
        have hsh : a.tup.shift = b.tup.shift := by
          unfold FXP.tup tuple.shift
          dsimp only
          rw [heq]
        rw [if_pos heq.ge, if_pos heq.le, heq, hsh,
          trunc64_of_floor_eq hai, trunc64_of_floor_eq hbi]
        have hp0 : pow2 (b.frac - b.frac) = 1 := by
          rw [sub_self]
          rfl
        rw [hp0]
        push_cast
        rw [hai, hbi]
        ring
      · rw [if_pos hgt.le, if_neg (not_le.mpr hgt)]
  · congr 1
    · cases m <;> simp [max_comm]
    · cases m <;> simp [max_comm, frac_mix_comm a b]
    · by_cases hffl : a.type = dtype.d_FLOAT ∧ b.type = dtype.d_FLOAT
      · rw [if_pos hffl, if_pos ⟨hffl.2, hffl.1⟩]
      · rw [if_neg hffl, if_neg (show ¬ (b.type = dtype.d_FLOAT ∧ a.type = dtype.d_FLOAT) from fun hh => hffl ⟨hh.2, hh.1⟩), add_type_comm]

/-- `_mul` is symmetric in its operands. -/
theorem mul_symm_core (a b : FXP) (m : modes) (s r : Bool) :
    _mul a b m s r = _mul b a m s r := by
  simp only [_mul]
  congr 1
  · by_cases hffl : a.type = dtype.d_FLOAT ∧ b.type = dtype.d_FLOAT
    · rw [if_pos hffl, if_pos ⟨hffl.2, hffl.1⟩]
      ring
    · rw [if_neg hffl, if_neg (show ¬ (b.type = dtype.d_FLOAT ∧ a.type = dtype.d_FLOAT) from fun hh => hffl ⟨hh.2, hh.1⟩), add_comm b.frac a.frac]
      ring
  · congr 1
    · cases m <;> simp [add_comm, max_comm]
    · cases m <;> simp [add_comm, max_comm, frac_mix_comm a b]
    · by_cases hffl : a.type = dtype.d_FLOAT ∧ b.type = dtype.d_FLOAT
      · rw [if_pos hffl, if_pos ⟨hffl.2, hffl.1⟩]
      · rw [if_neg hffl, if_neg (show ¬ (b.type = dtype.d_FLOAT ∧ a.type = dtype.d_FLOAT) from fun hh => hffl ⟨hh.2, hh.1⟩), add_type_comm]

/-- In FULL mode with exact-regime widths and well-formed operands, the
subtraction result is stored exactly, and negating the swapped
difference reproduces the same real value. -/
theorem sub_anticomm_full (a b : FXP) (s r : Bool)
    (hfl : a.type = dtype.d_FLOAT ↔ b.type = dtype.d_FLOAT)
    (hwa : a.WF) (hwb : b.WF)
    (hia : a.intg ≤ 29) (hib : b.intg ≤ 29) (hfa : a.frac ≤ 30) (hfb : b.frac ≤ 30) :
    (_sub a b modes.FULL s r).val = (FXP.neg (_sub b a modes.FULL s r)).val := by
  have e_ab : _sub a b modes.FULL s r = mkFXP
      (if a.type = dtype.d_FLOAT ∧ b.type = dtype.d_FLOAT then a._val - b._val
        else if b.frac ≤ a.frac then
          (a._val - ((trunc64 b._val * pow2 (a.frac - b.frac) : ℤ) : ℚ)) / a.tup.shift
        else
          (-b._val + ((trunc64 a._val * pow2 (b.frac - a.frac) : ℤ) : ℚ)) / b.tup.shift)
      (tuple.mk (max a.intg b.intg + 1) (max a.frac b.frac)
        (if a.type = dtype.d_FLOAT ∧ b.type = dtype.d_FLOAT then dtype.d_FLOAT
          else sub_type a.type b.type) modes.FULL s r) := rfl
  have e_ba : _sub b a modes.FULL s r = mkFXP
      (if b.type = dtype.d_FLOAT ∧ a.type = dtype.d_FLOAT then b._val - a._val
        else if a.frac ≤ b.frac then
          (b._val - ((trunc64 a._val * pow2 (b.frac - a.frac) : ℤ) : ℚ)) / b.tup.shift
        else
          (-a._val + ((trunc64 b._val * pow2 (a.frac - b.frac) : ℤ) : ℚ)) / a.tup.shift)
      (tuple.mk (max b.intg a.intg + 1) (max b.frac a.frac)
        (if b.type = dtype.d_FLOAT ∧ a.type = dtype.d_FLOAT then dtype.d_FLOAT
          else sub_type b.type a.type) modes.FULL s r) := rfl
  by_cases haf : a.type = dtype.d_FLOAT
  · -- Float operands: the difference is stored as-is and negation is exact.
    have hbf : b.type = dtype.d_FLOAT := hfl.mp haf
    rw [e_ab, e_ba, if_pos ⟨haf, hbf⟩, if_pos ⟨haf, hbf⟩, if_pos ⟨hbf, haf⟩,
      if_pos ⟨hbf, haf⟩]
    rw [mkFXP_val_float _ _ rfl, set_val_float _ rfl]
    unfold FXP.neg
    rw [mkFXP_tup, mkFXP_val_float _ _ rfl, set_val_float _ rfl,
      mkFXP_val_float _ _ rfl, set_val_float _ rfl]
    ring
  · -- Non-Float operands.
    have hbf : ¬ b.type = dtype.d_FLOAT := fun h => haf (hfl.mpr h)
    have hffl : ¬ (a.type = dtype.d_FLOAT ∧ b.type = dtype.d_FLOAT) := fun h => haf h.1
    have hffl' : ¬ (b.type = dtype.d_FLOAT ∧ a.type = dtype.d_FLOAT) := fun h => hbf h.1
    obtain ⟨na, hna, hla, hua⟩ := wf_val_bounds a hwa haf
    obtain ⟨nb, hnb, hlb, hub⟩ := wf_val_bounds b hwb hbf
    have hia0 : 0 ≤ a.intg := hwa.1
    have hib0 : 0 ≤ b.intg := hwb.1
    have hfa0 : 0 ≤ a.frac := hwa.2.1
    have hfb0 : 0 ≤ b.frac := hwb.2.1
    obtain ⟨X, hXdef⟩ : ∃ X : ℤ, X =
        na * pow2 (max a.frac b.frac - a.frac) - nb * pow2 (max a.frac b.frac - b.frac) :=
      ⟨_, rfl⟩
    -- scaled bounds on X
    have hA1 : na * pow2 (max a.frac b.frac - a.frac) ≤
        pow2 (a.intg + max a.frac b.frac) - 1 := by
      have h1 : na * pow2 (max a.frac b.frac - a.frac) ≤
          (pow2 (a.intg + a.frac) - 1) * pow2 (max a.frac b.frac - a.frac) :=
        mul_le_mul_of_nonneg_right hua (pow2_pos _).le
      have h2 : (a.intg + a.frac) + (max a.frac b.frac - a.frac) =
          a.intg + max a.frac b.frac := by ring
      have h3 : pow2 (a.intg + a.frac) * pow2 (max a.frac b.frac - a.frac) =
          pow2 (a.intg + max a.frac b.frac) := by
        rw [← pow2_add (by omega) (by omega), h2]
      have h4 := one_le_pow2 (max a.frac b.frac - a.frac)
      nlinarith
    have hA2 : -pow2 (a.intg + max a.frac b.frac) ≤
        na * pow2 (max a.frac b.frac - a.frac) := by
      have h1 : (-pow2 (a.intg + a.frac)) * pow2 (max a.frac b.frac - a.frac) ≤
          na * pow2 (max a.frac b.frac - a.frac) :=
        mul_le_mul_of_nonneg_right hla (pow2_pos _).le
      have h2 : (a.intg + a.frac) + (max a.frac b.frac - a.frac) =
          a.intg + max a.frac b.frac := by ring
      have h3 : pow2 (a.intg + a.frac) * pow2 (max a.frac b.frac - a.frac) =
          pow2 (a.intg + max a.frac b.frac) := by
        rw [← pow2_add (by omega) (by omega), h2]
      nlinarith
    have hB1 : nb * pow2 (max a.frac b.frac - b.frac) ≤
        pow2 (b.intg + max a.frac b.frac) - 1 := by
      have h1 : nb * pow2 (max a.frac b.frac - b.frac) ≤
          (pow2 (b.intg + b.frac) - 1) * pow2 (max a.frac b.frac - b.frac) :=
        mul_le_mul_of_nonneg_right hub (pow2_pos _).le
      have h2 : (b.intg + b.frac) + (max a.frac b.frac - b.frac) =
          b.intg + max a.frac b.frac := by ring
      have h3 : pow2 (b.intg + b.frac) * pow2 (max a.frac b.frac - b.frac) =
          pow2 (b.intg + max a.frac b.frac) := by
        rw [← pow2_add (by omega) (by omega), h2]
      have h4 := one_le_pow2 (max a.frac b.frac - b.frac)
      nlinarith
    have hB2 : -pow2 (b.intg + max a.frac b.frac) ≤
        nb * pow2 (max a.frac b.frac - b.frac) := by
      have h1 : (-pow2 (b.intg + b.frac)) * pow2 (max a.frac b.frac - b.frac) ≤
          nb * pow2 (max a.frac b.frac - b.frac) :=
        mul_le_mul_of_nonneg_right hlb (pow2_pos _).le
      have h2 : (b.intg + b.frac) + (max a.frac b.frac - b.frac) =
          b.intg + max a.frac b.frac := by ring
      have h3 : pow2 (b.intg + b.frac) * pow2 (max a.frac b.frac - b.frac) =
          pow2 (b.intg + max a.frac b.frac) := by
        rw [← pow2_add (by omega) (by omega), h2]
      nlinarith
    have hMa : pow2 (a.intg + max a.frac b.frac) ≤
        pow2 (max a.intg b.intg + max a.frac b.frac) :=
      pow2_le_pow2 (by omega)
    have hMb : pow2 (b.intg + max a.frac b.frac) ≤
        pow2 (max a.intg b.intg + max a.frac b.frac) :=
      pow2_le_pow2 (by omega)
    have hsucc : pow2 (max a.intg b.intg + 1 + max a.frac b.frac) =
        2 * pow2 (max a.intg b.intg + max a.frac b.frac) := by
      have h2 : max a.intg b.intg + 1 + max a.frac b.frac =
          (max a.intg b.intg + max a.frac b.frac) + 1 := by ring
      rw [h2, pow2_succ (by omega)]
    have hXu : X ≤ pow2 (max a.intg b.intg + 1 + max a.frac b.frac) - 1 := by omega
    have hXl : -pow2 (max a.intg b.intg + 1 + max a.frac b.frac) + 1 ≤ X := by omega
    -- the result configuration and its storage parameters
    have hhalfR : (tuple.mk (max a.intg b.intg + 1) (max a.frac b.frac)
        (sub_type a.type b.type) modes.FULL s r).half =
        pow2 (max a.intg b.intg + 1 + max a.frac b.frac) := by
      simp [tuple.half, sub_type_signed]
    have hfsR : (tuple.mk (max a.intg b.intg + 1) (max a.frac b.frac)
          (sub_type a.type b.type) modes.FULL s r).full -
        (tuple.mk (max a.intg b.intg + 1) (max a.frac b.frac)
          (sub_type a.type b.type) modes.FULL s r).half =
        pow2 (max a.intg b.intg + 1 + max a.frac b.frac) :=
      full_sub_half _ (show (0:ℤ) ≤ max a.intg b.intg + 1 + max a.frac b.frac by omega)
    have hshiftR : (tuple.mk (max a.intg b.intg + 1) (max a.frac b.frac)
        (sub_type a.type b.type) modes.FULL s r).shift =
        ((pow2 (max a.frac b.frac) : ℤ) : ℚ) := rfl
    have hq1 := set_val_int_exact
      (tuple.mk (max a.intg b.intg + 1) (max a.frac b.frac) (sub_type a.type b.type)
        modes.FULL s r)
      (sub_type_not_float a.type b.type)
      (show (0:ℤ) ≤ max a.intg b.intg + 1 by omega)
      (show (0:ℤ) ≤ max a.frac b.frac by omega)
      ⟨show max a.intg b.intg + 1 < 31 by omega, show max a.frac b.frac < 31 by omega⟩
      X (by rw [hhalfR]; omega) (by rw [hfsR]; omega)
    have hq2 := set_val_int_exact
      (tuple.mk (max a.intg b.intg + 1) (max a.frac b.frac) (sub_type a.type b.type)
        modes.FULL s r)
      (sub_type_not_float a.type b.type)
      (show (0:ℤ) ≤ max a.intg b.intg + 1 by omega)
      (show (0:ℤ) ≤ max a.frac b.frac by omega)
      ⟨show max a.intg b.intg + 1 < 31 by omega, show max a.frac b.frac < 31 by omega⟩
      (-X) (by rw [hhalfR]; omega) (by rw [hfsR]; omega)
    rw [hshiftR] at hq1 hq2
    -- the two temporary values, expressed through X
    have htv_ab : (if a.type = dtype.d_FLOAT ∧ b.type = dtype.d_FLOAT then a._val - b._val
        else if b.frac ≤ a.frac then
          (a._val - ((trunc64 b._val * pow2 (a.frac - b.frac) : ℤ) : ℚ)) / a.tup.shift
        else
          (-b._val + ((trunc64 a._val * pow2 (b.frac - a.frac) : ℤ) : ℚ)) / b.tup.shift) =
        ((X : ℤ) : ℚ) / ((pow2 (max a.frac b.frac) : ℤ) : ℚ) := by
      rw [if_neg hffl]
      rcases le_or_lt b.frac a.frac with hba | hab
      · have hM : max a.frac b.frac = a.frac := max_eq_left hba
        have hsh : a.tup.shift = ((pow2 (max a.frac b.frac) : ℤ) : ℚ) := by
          rw [hM]
          rfl
        have h0 : pow2 (a.frac - a.frac) = 1 := by
          rw [sub_self]
          rfl
        rw [if_pos hba, ← hna, ← hnb, trunc64_intCast, hsh, hXdef, hM, h0]
        push_cast
        ring
      · have hM : max a.frac b.frac = b.frac := max_eq_right hab.le
        have hsh : b.tup.shift = ((pow2 (max a.frac b.frac) : ℤ) : ℚ) := by
          rw [hM]
          rfl
        have h0 : pow2 (b.frac - b.frac) = 1 := by
          rw [sub_self]
          rfl
        rw [if_neg (not_le.mpr hab), ← hna, ← hnb, trunc64_intCast, hsh, hXdef, hM, h0]
        push_cast
        ring
    have htv_ba : (if b.type = dtype.d_FLOAT ∧ a.type = dtype.d_FLOAT then b._val - a._val
        else if a.frac ≤ b.frac then
          (b._val - ((trunc64 a._val * pow2 (b.frac - a.frac) : ℤ) : ℚ)) / b.tup.shift
        else
          (-a._val + ((trunc64 b._val * pow2 (a.frac - b.frac) : ℤ) : ℚ)) / a.tup.shift) =
        ((-X : ℤ) : ℚ) / ((pow2 (max a.frac b.frac) : ℤ) : ℚ) := by
      rw [if_neg hffl']
      rcases le_or_lt a.frac b.frac with hab | hba
      · have hM : max a.frac b.frac = b.frac := max_eq_right hab
        have hsh : b.tup.shift = ((pow2 (max a.frac b.frac) : ℤ) : ℚ) := by
          rw [hM]
          rfl
        have h0 : pow2 (b.frac - b.frac) = 1 := by
          rw [sub_self]
          rfl
        rw [if_pos hab, ← hna, ← hnb, trunc64_intCast, hsh, hXdef, hM, h0]
        push_cast
        ring
      · have hM : max a.frac b.frac = a.frac := max_eq_left hba.le
        have hsh : a.tup.shift = ((pow2 (max a.frac b.frac) : ℤ) : ℚ) := by
          rw [hM]
          rfl
        have h0 : pow2 (a.frac - a.frac) = 1 := by
          rw [sub_self]
          rfl
        rw [if_neg (not_le.mpr hba), ← hna, ← hnb, trunc64_intCast, hsh, hXdef, hM, h0]
        push_cast
        ring
    have hty_ab : (if a.type = dtype.d_FLOAT ∧ b.type = dtype.d_FLOAT then dtype.d_FLOAT
        else sub_type a.type b.type) = sub_type a.type b.type := if_neg hffl
    have hty_ba : (if b.type = dtype.d_FLOAT ∧ a.type = dtype.d_FLOAT then dtype.d_FLOAT
        else sub_type b.type a.type) = sub_type a.type b.type := by
      rw [if_neg hffl', sub_type_comm]
    rw [e_ab, htv_ab, hty_ab, e_ba, htv_ba, hty_ba, max_comm b.intg a.intg,
      max_comm b.frac a.frac]
    rw [mkFXP_val _ (tuple.mk (max a.intg b.intg + 1) (max a.frac b.frac)
        (sub_type a.type b.type) modes.FULL s r) (sub_type_not_float a.type b.type),
      hshiftR, hq1]
    unfold FXP.neg
    rw [mkFXP_tup]
    rw [mkFXP_val _ (tuple.mk (max a.intg b.intg + 1) (max a.frac b.frac)
        (sub_type a.type b.type) modes.FULL s r) (sub_type_not_float a.type b.type),
      hshiftR]
    rw [mkFXP_val _ (tuple.mk (max a.intg b.intg + 1) (max a.frac b.frac)
        (sub_type a.type b.type) modes.FULL s r) (sub_type_not_float a.type b.type),
      hshiftR, hq2]
    rw [show -(((-X : ℤ) : ℚ) / ((pow2 (max a.frac b.frac) : ℤ) : ℚ)) =
        ((X : ℤ) : ℚ) / ((pow2 (max a.frac b.frac) : ℤ) : ℚ) from by push_cast; ring]
    rw [hq1]

/-- C9 counterexample: for the compatible pair (shared FixedFrac mode,
wraparound, truncation, both signed-fixed, no Float operand) with
`a = 0.5` in `(intg=2, frac=1)` and `b = 0` in `(intg=2, frac=0)`, the
library comparison `a-b == -(b-a)` fails: `(a-b).val() = 0` while
`(-(b-a)).val() = 1`, because truncation is not symmetric around zero
once the FixedFrac result drops the fractional bit. -/
theorem sub_anticomm_counterexample :
    ¬ (_sub2 (mkFXP (1/2) (tuple.mk 2 1 dtype.d_FXP modes.FIXEDFRAC false false))
          (mkFXP 0 (tuple.mk 2 0 dtype.d_FXP modes.FIXEDFRAC false false))).val =
        (FXP.neg (_sub2 (mkFXP 0 (tuple.mk 2 0 dtype.d_FXP modes.FIXEDFRAC false false))
          (mkFXP (1/2) (tuple.mk 2 1 dtype.d_FXP modes.FIXEDFRAC false false)))).val := by
  have hp0 : pow2 0 = 1 := by decide
  have hp1 : pow2 1 = 2 := by decide
  have hp2 : pow2 2 = 4 := by decide
  have hp3 : pow2 3 = 8 := by decide
  have hp4 : pow2 4 = 16 := by decide
  norm_num +decide [_sub2, _sub, sub_type, frac_mix, FXP.neg, FXP.tup, mkFXP, FXP.val,
    tuple.set_val, tuple.clamp, to_signed_emod, to_unsigned_emod, tuple.rnd, cround,
    trunc64, tuple.shift, tuple.half, tuple.full, tuple.pinf, tuple.ninf,
    dtype.isUnsigned, dtype.isIntKind, dtype.isFxpKind, hp0, hp1, hp2, hp3, hp4]

/-- C9 amended: for every compatible pair (shared widthInferenceMode,
overflow and rounding policies, Float never mixed with non-Float) of
well-formed values, addition and multiplication are commutative under
the library's `==` (which compares real values); subtraction satisfies
`a-b == -(b-a)` when the shared mode is Full and the operand widths lie
in the exact-bound regime (`intg ≤ 29`, `frac ≤ 30`), but not in
general (see the counterexample). -/
theorem arith_commutativity (a b : FXP)
    (hop : a.opmode = b.opmode) (hsat : a.sat = b.sat) (hrnd : a.rounding = b.rounding)
    (hfl : a.type = dtype.d_FLOAT ↔ b.type = dtype.d_FLOAT)
    (hwa : a.WF) (hwb : b.WF) :
    (_add2 a b).val = (_add2 b a).val ∧
    (_mul2 a b).val = (_mul2 b a).val ∧
    (a.opmode = modes.FULL → a.intg ≤ 29 → b.intg ≤ 29 → a.frac ≤ 30 → b.frac ≤ 30 →
      (_sub2 a b).val = (FXP.neg (_sub2 b a)).val) := by
  have hint_a : a.type = dtype.d_FLOAT ∨ (⌊a._val⌋ : ℚ) = a._val := by
    rcases hwa.2.2 with h | h
    · exact Or.inl h
    · exact Or.inr h.1
  have hint_b : b.type = dtype.d_FLOAT ∨ (⌊b._val⌋ : ℚ) = b._val := by
    rcases hwb.2.2 with h | h
    · exact Or.inl h
    · exact Or.inr h.1
  refine ⟨?_, ?_, ?_⟩
  · unfold _add2
    rw [hop, hsat, hrnd]
    exact congrArg FXP.val (add_symm_core a b b.opmode b.sat b.rounding hfl hint_a hint_b)
  · unfold _mul2
    rw [hop, hsat, hrnd]
    exact congrArg FXP.val (mul_symm_core a b b.opmode b.sat b.rounding)
  · intro hm hia hib hfa hfb
    unfold _sub2
    rw [← hop, ← hsat, ← hrnd, hm]
    exact sub_anticomm_full a b a.sat a.rounding hfl hwa hwb hia hib hfa hfb

theorem aW9_wf : aW9.WF := by
  have hp1 : pow2 1 = 2 := by decide
  have hp4 : pow2 4 = 16 := by decide
  have hp5 : pow2 5 = 32 := by decide
  norm_num +decide [aW9, FXP.WF, FXP.tup, mkFXP, tuple.set_val, tuple.clamp,
    to_signed_emod, tuple.rnd, trunc64, tuple.shift, tuple.half, tuple.full,
    tuple.pinf, tuple.ninf, dtype.isUnsigned, hp1, hp4, hp5]

theorem bW9_wf : bW9.WF := by
  have hp1 : pow2 1 = 2 := by decide
  have hp3 : pow2 3 = 8 := by decide
  have hp4 : pow2 4 = 16 := by decide
  norm_num +decide [bW9, FXP.WF, FXP.tup, mkFXP, tuple.set_val, tuple.clamp,
    to_signed_emod, tuple.rnd, trunc64, tuple.shift, tuple.half, tuple.full,
    tuple.pinf, tuple.ninf, dtype.isUnsigned, hp1, hp3, hp4]

theorem arith_commutativity_witness :
    (aW9.opmode = bW9.opmode) ∧ (aW9.sat = bW9.sat) ∧ (aW9.rounding = bW9.rounding) ∧
    (aW9.type = dtype.d_FLOAT ↔ bW9.type = dtype.d_FLOAT) ∧ aW9.WF ∧ bW9.WF ∧
    ((_add2 aW9 bW9).val = (_add2 bW9 aW9).val ∧
     (_mul2 aW9 bW9).val = (_mul2 bW9 aW9).val ∧
     (aW9.opmode = modes.FULL → aW9.intg ≤ 29 → bW9.intg ≤ 29 → aW9.frac ≤ 30 →
       bW9.frac ≤ 30 → (_sub2 aW9 bW9).val = (FXP.neg (_sub2 bW9 aW9)).val)) :=
  ⟨rfl, rfl, rfl, by decide, aW9_wf, bW9_wf,
    arith_commutativity aW9 bW9 rfl rfl rfl (by decide) aW9_wf bW9_wf⟩
